import Mathlib

/-!
# GoWeather: the weather proxy handler of main.go

A shallow embedding of handleWeather and of the library calls it makes (net/url Values.Get,
godotenv.Load, os.Getenv, fmt.Sprintf, http.Get, ioutil.ReadAll, json.Unmarshal, http.Error,
json.Encoder.Encode), followed by the properties of the handler.

Go strings are modelled by String (texts that are valid UTF-8). The outside world of one call
(process environment, the .env file, the upstream server) is an explicit argument, and what the
handler does to it (environment written, calls issued) is part of its result.
-/

set_option exponentiation.threshold 4096

namespace GoWeather

/-! ## encoding/json: the scanner -/

/-- A lexical token of a JSON text. -/
inductive JsonToken where
  | beginObject | endObject | beginArray | endArray | nameSep | valueSep
  | string (s : String)
  | number (lit : String)
  | litTrue | litFalse | litNull
  deriving DecidableEq, Repr

/-- States of the scanner inside a number literal (scanner.go: stateNeg, state0, state1,
stateDot, stateDot0, stateE, stateESign, stateE0). -/
inductive NumState where
  | neg | zero | int | dot | frac | e | eSign | exp
  deriving DecidableEq, Repr

/-- States of the scanner inside a string literal. -/
inductive StrState where
  | plain
  | esc
  | hex (acc : Nat) (left : Nat)
  deriving DecidableEq, Repr

/-- Scanner state between and inside tokens. -/
inductive LexState where
  | idle
  | inString (rev : List Char) (hi : Option Nat) (s : StrState)
  | inNumber (st : NumState) (rev : List Char)
  | inLit (tok : JsonToken) (rest : List Char)
  deriving DecidableEq, Repr

/-- White space between tokens (scanner.go, isSpace). -/
def isSpace (c : Char) : Bool := c == ' ' || c == '\t' || c == '\r' || c == '\n'

/-- A decimal digit. -/
def isDigit (c : Char) : Bool := '0'.toNat ≤ c.toNat && c.toNat ≤ '9'.toNat

/-- The value of a hexadecimal digit. -/
def hexVal (c : Char) : Option Nat :=
  if '0'.toNat ≤ c.toNat ∧ c.toNat ≤ '9'.toNat then some (c.toNat - '0'.toNat)
  else if 'a'.toNat ≤ c.toNat ∧ c.toNat ≤ 'f'.toNat then some (c.toNat - 'a'.toNat + 10)
  else if 'A'.toNat ≤ c.toNat ∧ c.toNat ≤ 'F'.toNat then some (c.toNat - 'A'.toNat + 10)
  else none

/-- The character a one-letter escape stands for (decode.go, unquoteBytes). -/
def escChar (c : Char) : Option Char :=
  if c = '"' then some '"'
  else if c = '\\' then some '\\'
  else if c = '/' then some '/'
  else if c = 'b' then some (Char.ofNat 8)
  else if c = 'f' then some (Char.ofNat 12)
  else if c = 'n' then some '\n'
  else if c = 'r' then some '\r'
  else if c = 't' then some '\t'
  else none

/-- The character U+FFFD that stands for an invalid surrogate. -/
def replacementChar : Char := Char.ofNat 0xFFFD

/-- A UTF-16 code unit that opens a surrogate pair. -/
def isHighSurrogate (v : Nat) : Bool := 0xD800 ≤ v && v < 0xDC00

/-- A UTF-16 code unit that closes a surrogate pair. -/
def isLowSurrogate (v : Nat) : Bool := 0xDC00 ≤ v && v < 0xE000

/-- A pending high surrogate that no low surrogate followed becomes U+FFFD. -/
def flushHi (rev : List Char) (hi : Option Nat) : List Char :=
  match hi with
  | some _ => replacementChar :: rev
  | none => rev

/-- The escape \uXXXX with value v, read with no high surrogate pending. -/
def freshUnit (rev : List Char) (v : Nat) : List Char × Option Nat :=
  if isHighSurrogate v then (rev, some v)
  else if isLowSurrogate v then (replacementChar :: rev, none)
  else (Char.ofNat v :: rev, none)

/-- The escape \uXXXX with value v completed: a low surrogate joins a pending high one. -/
def endUnit (rev : List Char) (hi : Option Nat) (v : Nat) : List Char × Option Nat :=
  match hi with
  | some h =>
    if isLowSurrogate v then
      (Char.ofNat (0x10000 + (h - 0xD800) * 0x400 + (v - 0xDC00)) :: rev, none)
    else freshUnit (replacementChar :: rev) v
  | none => freshUnit rev v

/-- One character inside a string literal: escapes are resolved as the decoder does (unquote),
a control character is an error. -/
def stringStep (rev : List Char) (hi : Option Nat) (s : StrState) (c : Char) :
    Option (LexState × List JsonToken) :=
  match s with
  | .plain =>
    if c = '"' then some (.idle, [.string (String.mk (flushHi rev hi).reverse)])
    else if c = '\\' then some (.inString rev hi .esc, [])
    else if c.toNat < 0x20 then none
    else some (.inString (c :: flushHi rev hi) none .plain, [])
  | .esc =>
    if c = 'u' then some (.inString rev hi (.hex 0 4), [])
    else match escChar c with
      | some d => some (.inString (d :: flushHi rev hi) none .plain, [])
      | none => none
  | .hex acc left =>
    match hexVal c with
    | none => none
    | some d =>
      if left ≤ 1 then
        let r := endUnit rev hi (acc * 16 + d)
        some (.inString r.1 r.2 .plain, [])
      else some (.inString rev hi (.hex (acc * 16 + d) (left - 1)), [])

/-- One character inside a number: the next state, none when the number ends before the
character, or an error. -/
def numberStep (st : NumState) (c : Char) : Except Unit (Option NumState) :=
  let isE := c = 'e' ∨ c = 'E'
  match st with
  | .neg => if c = '0' then .ok (some .zero) else if isDigit c then .ok (some .int) else .error ()
  | .zero => if c = '.' then .ok (some .dot) else if isE then .ok (some .e) else .ok none
  | .int => if isDigit c then .ok (some .int) else if c = '.' then .ok (some .dot)
            else if isE then .ok (some .e) else .ok none
  | .dot => if isDigit c then .ok (some .frac) else .error ()
  | .frac => if isDigit c then .ok (some .frac) else if isE then .ok (some .e) else .ok none
  | .e => if c = '+' ∨ c = '-' then .ok (some .eSign) else if isDigit c then .ok (some .exp)
          else .error ()
  | .eSign => if isDigit c then .ok (some .exp) else .error ()
  | .exp => if isDigit c then .ok (some .exp) else .ok none

/-- Whether a number may end in this state. -/
def numberDone (st : NumState) : Bool :=
  match st with
  | .zero | .int | .frac | .exp => true
  | _ => false

/-- The scanner at the start of a token. -/
def idleStep (c : Char) : Option (LexState × List JsonToken) :=
  if isSpace c then some (.idle, [])
  else if c = '\x7b' then some (.idle, [.beginObject])
  else if c = '\x7d' then some (.idle, [.endObject])
  else if c = '[' then some (.idle, [.beginArray])
  else if c = ']' then some (.idle, [.endArray])
  else if c = ':' then some (.idle, [.nameSep])
  else if c = ',' then some (.idle, [.valueSep])
  else if c = '"' then some (.inString [] none .plain, [])
  else if c = '-' then some (.inNumber .neg [c], [])
  else if c = '0' then some (.inNumber .zero [c], [])
  else if isDigit c then some (.inNumber .int [c], [])
  else if c = 't' then some (.inLit .litTrue ['r', 'u', 'e'], [])
  else if c = 'f' then some (.inLit .litFalse ['a', 'l', 's', 'e'], [])
  else if c = 'n' then some (.inLit .litNull ['u', 'l', 'l'], [])
  else none

/-- One character of the text: the next state and the tokens that end at it, none on an
error. A number ends before the first character that cannot continue it. -/
def lexStep (st : LexState) (c : Char) : Option (LexState × List JsonToken) :=
  match st with
  | .idle => idleStep c
  | .inString rev hi s => stringStep rev hi s c
  | .inNumber ns rev =>
    match numberStep ns c with
    | .error _ => none
    | .ok (some ns') => some (.inNumber ns' (c :: rev), [])
    | .ok none =>
      match idleStep c with
      | some (st', toks) => some (st', .number (String.mk rev.reverse) :: toks)
      | none => none
  | .inLit tok rest =>
    match rest with
    | [] => none
    | [d] => if c = d then some (.idle, [tok]) else none
    | d :: ds => if c = d then some (.inLit tok ds, []) else none

/-- The tokens of a text, none on a lexical error. -/
def lexFrom (st : LexState) : List Char → Option (List JsonToken)
  | [] =>
    match st with
    | .idle => some []
    | .inNumber ns rev => if numberDone ns then some [.number (String.mk rev.reverse)] else none
    | _ => none
  | c :: cs =>
    match lexStep st c with
    | none => none
    | some (st', toks) =>
      match lexFrom st' cs with
      | none => none
      | some rest => some (toks ++ rest)

/-- The scanner run over a piece of text: the state it is left in and the tokens that ended
inside the piece, none on a lexical error. -/
def lexRun : LexState → List Char → Option (LexState × List JsonToken)
  | st, [] => some (st, [])
  | st, c :: cs =>
    match lexStep st c with
    | none => none
    | some (st', toks) =>
      match lexRun st' cs with
      | none => none
      | some (st'', rest) => some (st'', toks ++ rest)

/-! ## encoding/json: values -/

/-- A JSON document. A number keeps its literal, as the decoder does until it knows
the Go type it converts to. -/
inductive Json where
  | null
  | bool (b : Bool)
  | number (lit : String)
  | string (s : String)
  | array (elems : List Json)
  | object (members : List (String × Json))
  deriving Repr

/-- An open array or object on the parse stack. -/
inductive Frame where
  | arr (rev : List Json)
  | obj (rev : List (String × Json)) (key : Option String)

/-- What the parser expects next (scanner.go: stateBeginValue, stateBeginValueOrEmpty,
stateBeginStringOrEmpty, stateBeginString, stateEndValue, stateEndTop). -/
inductive Expect where
  | beginValue | beginValueOrEmpty | beginStringOrEmpty | beginString | afterKey | endValue
  | endTop (v : Json)

/-- Nesting limit of the scanner. -/
def maxNestingDepth : Nat := 10000

/-- A value is complete: it is the document, an array element or an object member. -/
def complete (v : Json) (stack : List Frame) : Option (Expect × List Frame) :=
  match stack with
  | [] => some (.endTop v, [])
  | .arr rev :: rest => some (.endValue, .arr (v :: rev) :: rest)
  | .obj rev (some k) :: rest => some (.endValue, .obj ((k, v) :: rev) none :: rest)
  | .obj _ none :: _ => none

/-- A token where a value starts. -/
def beginValue (stack : List Frame) (t : JsonToken) : Option (Expect × List Frame) :=
  match t with
  | .string s => complete (.string s) stack
  | .number lit => complete (.number lit) stack
  | .litTrue => complete (.bool true) stack
  | .litFalse => complete (.bool false) stack
  | .litNull => complete .null stack
  | .beginArray =>
    if stack.length + 1 ≤ maxNestingDepth then some (.beginValueOrEmpty, .arr [] :: stack)
    else none
  | .beginObject =>
    if stack.length + 1 ≤ maxNestingDepth then some (.beginStringOrEmpty, .obj [] none :: stack)
    else none
  | _ => none

/-- A token where an object key starts. -/
def beginString (stack : List Frame) (t : JsonToken) : Option (Expect × List Frame) :=
  match t, stack with
  | .string k, .obj rev none :: rest => some (.afterKey, .obj rev (some k) :: rest)
  | _, _ => none

/-- The token ] closes the open array. -/
def endArray (stack : List Frame) : Option (Expect × List Frame) :=
  match stack with
  | .arr rev :: rest => complete (.array rev.reverse) rest
  | _ => none

/-- The closing brace closes the open object. -/
def endObject (stack : List Frame) : Option (Expect × List Frame) :=
  match stack with
  | .obj rev none :: rest => complete (.object rev.reverse) rest
  | _ => none

/-- One token: what is expected next and the stack, none on an error. -/
def parseStep (ex : Expect) (stack : List Frame) (t : JsonToken) :
    Option (Expect × List Frame) :=
  match ex with
  | .beginValue => beginValue stack t
  | .beginValueOrEmpty => if t = .endArray then endArray stack else beginValue stack t
  | .beginStringOrEmpty => if t = .endObject then endObject stack else beginString stack t
  | .beginString => beginString stack t
  | .afterKey => if t = .nameSep then some (.beginValue, stack) else none
  | .endValue =>
    match stack with
    | .arr _ :: _ =>
      if t = .valueSep then some (.beginValue, stack)
      else if t = .endArray then endArray stack else none
    | .obj _ _ :: _ =>
      if t = .valueSep then some (.beginString, stack)
      else if t = .endObject then endObject stack else none
    | [] => none
  | .endTop _ => none

/-- The document of a token sequence: after the last token one value must be complete. -/
def parseFrom (ex : Expect) (stack : List Frame) : List JsonToken → Option Json
  | [] =>
    match ex with
    | .endTop v => some v
    | _ => none
  | t :: ts =>
    match parseStep ex stack t with
    | none => none
    | some (ex', stack') => parseFrom ex' stack' ts

/-- The document a text holds, none when the text is not valid JSON (checkValid). -/
def parseJSON (body : String) : Option Json :=
  match lexFrom .idle body.data with
  | none => none
  | some toks => parseFrom .beginValue [] toks

/-! ## float64 -/

/-- A finite float64: the number (-1)^neg * mant * 2^(exp - 1074), with mant < 2^53, and
2^52 ≤ mant when 0 < exp (exp ≤ 2045). NaN and the infinities are left out: no JSON number
decodes to them. -/
structure Float64 where
  neg : Bool
  mant : Nat
  exp : Nat
  deriving DecidableEq, Repr

/-- The zero value of a float64 field. -/
def Float64.zero : Float64 := ⟨false, 0, 0⟩

/-- The representations that stand for a float64: the mantissa has at most 53 bits, exactly
53 above the lowest exponent, and the exponent is in range. -/
def Float64.valid (f : Float64) : Prop :=
  f.mant < 2 ^ 53 ∧ (0 < f.exp → 2 ^ 52 ≤ f.mant) ∧ f.exp ≤ 2045

/-- The number a run of decimal digits writes. -/
def digitsValue (ds : List Char) : Nat :=
  ds.foldl (fun acc c => acc * 10 + (c.toNat - '0'.toNat)) 0

/-- The least exponent e, from e on, with n / den < 2^(e + 53); fuel steps at most. -/
def findExp : Nat → Nat → Nat → Nat → Nat
  | 0, _, _, e => e
  | fuel + 1, n, den, e => if n < den * 2 ^ (e + 53) then e else findExp fuel n den (e + 1)

/-- The nearest float64 magnitude to num / den (ties to even) as (mant, exp), none when it
is too large for a float64. -/
def roundToFloat64 (num den : Nat) : Option (Nat × Nat) :=
  if num = 0 then some (0, 0) else
  let n := num * 2 ^ 1074
  let e := findExp 2046 n den 0
  let d := den * 2 ^ e
  let q := n / d
  let r := n % d
  let q1 := if d < 2 * r ∨ (2 * r = d ∧ q % 2 = 1) then q + 1 else q
  if q1 = 2 ^ 53 then (if 2045 < e + 1 then none else some (2 ^ 52, e + 1))
  else if 2045 < e then none else some (q1, e)

/-- Whether a character of a number literal comes before the exponent. -/
def notExp (c : Char) : Bool := c != 'e' && c != 'E'

/-- The number an unsigned JSON number literal writes, as num / den. -/
def readDecimal (cs : List Char) : Nat × Nat :=
  let mantPart := cs.takeWhile notExp
  let expPart := (cs.dropWhile notExp).drop 1
  let intDigits := mantPart.takeWhile (fun c => c != '.')
  let fracDigits := (mantPart.dropWhile (fun c => c != '.')).drop 1
  let expDigits := if expPart.head? = some '-' ∨ expPart.head? = some '+' then expPart.drop 1
    else expPart
  let d := digitsValue (intDigits ++ fracDigits)
  let ex := digitsValue expDigits
  -- the value is d * 10 ^ (±ex - fracDigits.length)
  if expPart.head? = some '-' then (d, 10 ^ (ex + fracDigits.length))
  else if fracDigits.length ≤ ex then (d * 10 ^ (ex - fracDigits.length), 1)
  else (d, 10 ^ (fracDigits.length - ex))

/-- The conversion strconv.ParseFloat(lit, 64) of a JSON number literal: the nearest float64,
none for a range error. -/
def parseFloat (lit : String) : Option Float64 :=
  let neg := lit.data.head? = some '-'
  let cs := if neg then lit.data.drop 1 else lit.data
  match roundToFloat64 (readDecimal cs).1 (readDecimal cs).2 with
  | none => none
  | some (m, e) => some ⟨neg, m, e⟩

/-- Whether |a| < |b|. -/
def Float64.absLt (a b : Float64) : Bool :=
  a.exp < b.exp || (a.exp = b.exp && a.mant < b.mant)

/-- For den ≤ num: the k with 10^k ≤ num / den < 10^(k+1), counted up from k. A float64 is
below 10^309, so 400 steps are enough. -/
def log10Up : Nat → Nat → Nat → Nat → Nat
  | 0, _, _, k => k
  | fuel + 1, num, den, k => if den * 10 ^ (k + 1) ≤ num then log10Up fuel num den (k + 1) else k

/-- For num < den: the j with 10^(-j) ≤ num / den < 10^(1-j), counted up from j. A float64
other than 0 is above 10^(-324), so 400 steps are enough. -/
def log10Down : Nat → Nat → Nat → Nat → Nat
  | 0, _, _, j => j
  | fuel + 1, num, den, j => if den ≤ num * 10 ^ j then j else log10Down fuel num den (j + 1)

/-- A decimal: the number c * 10^up / 10^down. -/
structure Decimal where
  c : Nat
  up : Nat
  down : Nat
  deriving DecidableEq, Repr

/-- The number of a decimal as num / den. -/
def Decimal.fraction (d : Decimal) : Nat × Nat :=
  if d.down ≤ d.up then (d.c * 10 ^ (d.up - d.down), 1) else (d.c, 10 ^ (d.down - d.up))

/-- Whether a decimal converts back to the float64 m * 2^(e - 1074): it lies between the
middle to the float64 before and the middle to the one after, the middles included when m
is even. -/
def roundsTo (m e : Nat) (d : Decimal) : Bool :=
  let lo := (4 * m - (if m = 2 ^ 52 ∧ 0 < e then 1 else 2)) * 2 ^ e * 10 ^ d.down
  let x := d.c * 10 ^ d.up * 2 ^ 1076
  let hi := (4 * m + 2) * 2 ^ e * 10 ^ d.down
  if m % 2 = 0 then decide (lo ≤ x ∧ x ≤ hi) else decide (lo < x ∧ x < hi)

/-- The decimal with n digits just below the float64 m * 2^(e - 1074), m ≠ 0. -/
def decimalBelow (m e n : Nat) : Decimal :=
  let t := 2 ^ 1076
  let nv := 4 * m * 2 ^ e
  let (up, down) :=
    if t ≤ nv then
      let k := log10Up 400 nv t 0
      if n - 1 ≤ k then (k - (n - 1), 0) else (0, n - 1 - k)
    else (0, log10Down 400 nv t 1 + (n - 1))
  ⟨(nv * 10 ^ down) / (t * 10 ^ up), up, down⟩

/-- Whether of the decimals c and c + 1 units around the float64 the lower one is nearer, or
as near and even. -/
def lowerIsNearer (m e : Nat) (d : Decimal) : Bool :=
  let v := 4 * m * 2 ^ e * 10 ^ d.down
  let u := 10 ^ d.up * 2 ^ 1076
  let dLo := v - d.c * u
  let dHi := (d.c + 1) * u - v
  decide (dLo < dHi ∨ (dLo = dHi ∧ d.c % 2 = 0))

/-- The float64 m * 2^(e - 1074) written out exactly. -/
def exactDecimal (m e : Nat) : Decimal :=
  if 1074 ≤ e then ⟨m * 2 ^ (e - 1074), 0, 0⟩ else ⟨m * 5 ^ (1074 - e), 0, 1074 - e⟩

/-- The shortest decimal that converts back to the float64 m * 2^(e - 1074), of the decimals
with that many digits the nearest. Tried with n, n + 1, ... digits, fuel times; 17 digits
always convert back, and after the last try the exact decimal stands. -/
def shortest (m e : Nat) : Nat → Nat → Decimal
  | 0, _ => exactDecimal m e
  | fuel + 1, n =>
    let lo := decimalBelow m e n
    let hi : Decimal := ⟨lo.c + 1, lo.up, lo.down⟩
    if roundsTo m e lo && roundsTo m e hi then (if lowerIsNearer m e lo then lo else hi)
    else if roundsTo m e lo then lo
    else if roundsTo m e hi then hi
    else shortest m e fuel (n + 1)

/-- The decimal without the zeros at the end of its digits. -/
def stripZeros : Nat → Decimal → Decimal
  | 0, d => d
  | fuel + 1, d =>
    if d.c ≠ 0 ∧ d.c % 10 = 0 then stripZeros fuel ⟨d.c / 10, d.up + 1, d.down⟩ else d

/-- The character of a digit. -/
def digitChar (d : Nat) : Char := Char.ofNat ('0'.toNat + d % 10)

/-- The digits of c, the first one first; fuel ≥ c is enough. -/
def decimalDigitsAux : Nat → Nat → List Char
  | 0, c => [digitChar c]
  | fuel + 1, c =>
    if c < 10 then [digitChar c] else decimalDigitsAux fuel (c / 10) ++ [digitChar c]

/-- The digits of c in base ten. -/
def decimalDigits (c : Nat) : List Char := decimalDigitsAux c c

/-- The format %f with the shortest precision (strconv, fmtF) of the decimal with digits ds:
the decimal point stands after ds.length + up - down digits. -/
def fmtF (ds : List Char) (up down : Nat) : List Char :=
  if down < ds.length + up then
    let dp := ds.length + up - down
    let ip := ds.take dp ++ List.replicate (dp - ds.length) '0'
    if ds.drop dp = [] then ip else ip ++ '.' :: ds.drop dp
  else '0' :: '.' :: (List.replicate (down - (ds.length + up)) '0' ++ ds)

/-- The format %e with the shortest precision, the exponent written as the encoder leaves it
(e-07 cleaned up to e-7). -/
def fmtE (ds : List Char) (up down : Nat) : List Char :=
  let m := match ds with
    | [] => ['0']
    | [d] => [d]
    | d :: rest => d :: '.' :: rest
  if ds.length + up ≤ down then m ++ 'e' :: '-' :: decimalDigits (down + 1 - (ds.length + up))
  else m ++ 'e' :: '+' :: decimalDigits (ds.length + up - 1 - down)

/-- The digits and exponents the encoder writes for the float64 m * 2^(e - 1074), m ≠ 0. -/
def shortestDecimal (m e : Nat) : Decimal :=
  let d := shortest m e 17 1
  stripZeros d.c d

/-- The text the encoder writes for a float64 (encode.go, floatEncoder): %e below 1e-6 and
from 1e21 on, else %f. -/
def formatFloat (f : Float64) : String :=
  let sign := if f.neg then ['-'] else []
  if f.mant = 0 then String.mk (sign ++ ['0']) else
  let d := shortestDecimal f.mant f.exp
  let small := match parseFloat "1e-6" with
    | some b => f.absLt b
    | none => false
  let large := decide (10 ^ 21 * 2 ^ 1074 ≤ f.mant * 2 ^ f.exp)
  String.mk (sign ++ (if small || large then fmtE (decimalDigits d.c) d.up d.down
    else fmtF (decimalDigits d.c) d.up d.down))

/-! ## encoding/json: Unmarshal into WeatherData -/

/-- The anonymous struct of the field Main. -/
structure MainData where
  Temp : Float64
  deriving DecidableEq, Repr

/-- The anonymous struct of an element of the field Weather. -/
structure WeatherEntry where
  Description : String
  deriving DecidableEq, Repr

/-- Struct to hold the weather data. -/
structure WeatherData where
  Main : MainData
  Weather : List WeatherEntry
  deriving DecidableEq, Repr

/-- The value of var weatherData WeatherData. -/
def WeatherData.zero : WeatherData := ⟨⟨Float64.zero⟩, []⟩

/-- Case folding of a character of an object key (encoding/json, foldName), exact for the
comparison with a field name made of ASCII letters: a letter and its capital are equal, and so
are the long s and s, the Kelvin sign and k. -/
def foldChar (c : Char) : Char :=
  if 'a'.toNat ≤ c.toNat ∧ c.toNat ≤ 'z'.toNat then Char.ofNat (c.toNat - 32)
  else if c.toNat = 0x17F then 'S'
  else if c.toNat = 0x212A then 'K'
  else c

/-- Whether an object key names the struct field with this json tag. -/
def keyMatches (key field : String) : Bool :=
  key.data.map foldChar = field.data.map foldChar

/-- The Value of the UnmarshalTypeError for a JSON value that does not fit the Go type. -/
def Json.kindName : Json → String
  | .null => "null"
  | .bool _ => "bool"
  | .number lit => "number " ++ lit
  | .string _ => "string"
  | .array _ => "array"
  | .object _ => "object"

/-- Decoding into the float64 field Temp: null leaves the field as it is. -/
def decodeTemp (v : Json) (old : Float64) : Except String Float64 :=
  match v with
  | .null => .ok old
  | .number lit =>
    match parseFloat lit with
    | some f => .ok f
    | none => .error ("json: cannot unmarshal number " ++ lit ++ " into Go value of type float64")
  | v => .error ("json: cannot unmarshal " ++ v.kindName ++ " into Go value of type float64")

/-- One member of the object decoded into the struct of Main. Unknown keys are skipped. -/
def decodeMainMember (acc : MainData) (m : String × Json) : Except String MainData :=
  if keyMatches m.1 "temp" then
    match decodeTemp m.2 acc.Temp with
    | .ok t => .ok ⟨t⟩
    | .error e => .error e
  else .ok acc

/-- The members of an object, decoded one after the other into the same struct. -/
def decodeMembers {α : Type} (step : α → String × Json → Except String α) :
    List (String × Json) → α → Except String α
  | [], acc => .ok acc
  | m :: ms, acc =>
    match step acc m with
    | .ok acc' => decodeMembers step ms acc'
    | .error e => .error e

/-- Decoding into the struct Main: an object sets the fields it names, null changes nothing. -/
def decodeMain (v : Json) (old : MainData) : Except String MainData :=
  match v with
  | .null => .ok old
  | .object ms => decodeMembers decodeMainMember ms old
  | v => .error ("json: cannot unmarshal " ++ v.kindName ++ " into Go value of type struct")

/-- Decoding into the string field Description: null leaves the field as it is. -/
def decodeDescription (v : Json) (old : String) : Except String String :=
  match v with
  | .null => .ok old
  | .string s => .ok s
  | v => .error ("json: cannot unmarshal " ++ v.kindName ++ " into Go value of type string")

/-- One member of the object decoded into an element of Weather. -/
def decodeEntryMember (acc : WeatherEntry) (m : String × Json) : Except String WeatherEntry :=
  if keyMatches m.1 "description" then
    match decodeDescription m.2 acc.Description with
    | .ok d => .ok ⟨d⟩
    | .error e => .error e
  else .ok acc

/-- Decoding of one element of the array into the element old that the slice holds at its
index: an object sets the field it names, null changes nothing. -/
def decodeEntry (v : Json) (old : WeatherEntry) : Except String WeatherEntry :=
  match v with
  | .null => .ok old
  | .object ms => decodeMembers decodeEntryMember ms old
  | v => .error ("json: cannot unmarshal " ++ v.kindName ++ " into Go value of type struct")

/-- The elements of an array, decoded in order into the elements of the backing array store
(decode.go, array: element i is decoded into v.Index(i), the slice is lengthened over what
its array holds); where the array ends the element is a zero one. The first error ends the
decoding. -/
def decodeEntries : List WeatherEntry → List Json → Except String (List WeatherEntry)
  | _, [] => .ok []
  | store, v :: vs =>
    match decodeEntry v (store.headD ⟨""⟩) with
    | .error e => .error e
    | .ok x =>
      match decodeEntries store.tail vs with
      | .error e => .error e
      | .ok xs => .ok (x :: xs)

/-- Decoding into a slice whose backing array holds store (the elements of the slice, then
what an earlier, longer decoding left behind them): the new elements of the slice, and what
the array holds behind them. null makes the slice nil and an empty array makes a new empty
slice, both without a backing array. -/
def decodeWeather (v : Json) (store : List WeatherEntry) :
    Except String (List WeatherEntry × List WeatherEntry) :=
  match v with
  | .null => .ok ([], [])
  | .array [] => .ok ([], [])
  | .array (v :: vs) =>
    match decodeEntries store (v :: vs) with
    | .ok xs => .ok (xs, store.drop (v :: vs).length)
    | .error e => .error e
  | v => .error ("json: cannot unmarshal " ++ v.kindName ++ " into Go value of type []struct")

/-- The variable weatherData while json.Unmarshal fills it: its value, and the elements the
backing array of the slice Weather holds behind the length of the slice. The handler does
not see them, a later member weather of the same document decodes into them. -/
structure Decoding where
  data : WeatherData
  spare : List WeatherEntry

/-- One member of the object decoded into WeatherData: main, weather, or a key that is
skipped. A repeated key decodes into what the earlier one left. -/
def decodeDataMember (acc : Decoding) (m : String × Json) : Except String Decoding :=
  if keyMatches m.1 "main" then
    match decodeMain m.2 acc.data.Main with
    | .ok x => .ok ⟨{ acc.data with Main := x }, acc.spare⟩
    | .error e => .error e
  else if keyMatches m.1 "weather" then
    match decodeWeather m.2 (acc.data.Weather ++ acc.spare) with
    | .ok x => .ok ⟨{ acc.data with Weather := x.1 }, x.2⟩
    | .error e => .error e
  else .ok acc

/-- Decoding of a document into WeatherData: an object sets the fields it names, null
changes nothing, any other value is an error. -/
def decodeWeatherData (v : Json) (old : Decoding) : Except String Decoding :=
  match v with
  | .null => .ok old
  | .object ms => decodeMembers decodeDataMember ms old
  | v => .error ("json: cannot unmarshal " ++ v.kindName ++ " into Go value of type main.WeatherData")

/-- The call json.Unmarshal(body, &weatherData) on the zero weatherData: the text is checked
to be valid JSON, then decoded. A field no key names keeps its zero value; a value of the
wrong kind is an error (the first one is returned). -/
def unmarshal (body : String) : Except String WeatherData :=
  match parseJSON body with
  | none => .error "invalid character or unexpected end of JSON input"
  | some v =>
    match decodeWeatherData v ⟨WeatherData.zero, []⟩ with
    | .ok d => .ok d.data
    | .error e => .error e

/-! ## encoding/json: Encode of the response struct -/

/-- A hexadecimal digit in lower case. -/
def hexDigit (n : Nat) : Char :=
  if n < 10 then Char.ofNat ('0'.toNat + n) else Char.ofNat ('a'.toNat + (n - 10))

/-- One character of a string, as the encoder writes it with HTML escaping on
(encode.go, appendString). -/
def encodeChar (c : Char) : List Char :=
  if c = '"' then ['\\', '"']
  else if c = '\\' then ['\\', '\\']
  else if c.toNat = 8 then ['\\', 'b']
  else if c.toNat = 12 then ['\\', 'f']
  else if c = '\n' then ['\\', 'n']
  else if c = '\r' then ['\\', 'r']
  else if c = '\t' then ['\\', 't']
  else if c.toNat < 0x20 ∨ c = '<' ∨ c = '>' ∨ c = '&' then
    ['\\', 'u', '0', '0', hexDigit (c.toNat / 16), hexDigit (c.toNat % 16)]
  else if c.toNat = 0x2028 ∨ c.toNat = 0x2029 then
    ['\\', 'u', '2', '0', '2', hexDigit (c.toNat % 16)]
  else [c]

/-- A string as the encoder writes it, in quotes. -/
def encodeString (s : String) : String :=
  String.mk ('"' :: (s.data.flatMap encodeChar ++ ['"']))

/-- The struct literal response of handleWeather. -/
structure WeatherResponse where
  Temperature : Float64
  Condition : String
  deriving DecidableEq, Repr

/-- What json.NewEncoder(w).Encode(response) writes: the object and a newline. -/
def encodeResponse (r : WeatherResponse) : String :=
  "\x7b\"temperature\":" ++ formatFloat r.Temperature ++ ",\"condition\":" ++
    encodeString r.Condition ++ "\x7d\n"

/-! ## net/http, net/url, godotenv, os -/

/-- The query of a request, r.URL.Query(): the decoded pairs in the order of the query. -/
abbrev Values := List (String × String)

/-- Get gets the first value associated with the given key, the empty string if there is none. -/
def Values.Get (v : Values) (key : String) : String :=
  match v.find? (fun p => p.1 = key) with
  | some p => p.2
  | none => ""

/-- The part of *http.Request the handler reads. -/
structure Request where
  query : Values

/-- What the handler has written to the http.ResponseWriter when it returns: the status,
the headers it set, the body. -/
structure Response where
  status : Nat
  header : List (String × String)
  body : String
  deriving DecidableEq, Repr

/-- Status codes of net/http. -/
def StatusBadRequest : Nat := 400

/-- Status 500. -/
def StatusInternalServerError : Nat := 500

/-- Status 200, written with the first write of the body. -/
def StatusOK : Nat := 200

/-- The reply of http.Error(w, msg, code). -/
def httpError (msg : String) (code : Nat) : Response :=
  ⟨code, [("Content-Type", "text/plain; charset=utf-8"), ("X-Content-Type-Options", "nosniff")],
    msg ++ "\n"⟩

/-- The process environment: the value of a variable, none when it is unset. -/
abbrev Environ := String → Option String

/-- The call os.Getenv(key): the empty string when the variable is unset. -/
def Getenv (env : Environ) (key : String) : String :=
  match env key with
  | some v => v
  | none => ""

/-- The effect of a successful godotenv.Load on the environment: a variable of the file is
set unless the environment already has it. -/
def godotenvLoad (env : Environ) (file : String → Option String) : Environ :=
  fun key =>
    match env key with
    | some v => some v
    | none => file key

/-- What resp.Body gives to ioutil.ReadAll: the bytes, or a read error. -/
abbrev BodyRead := Except String String

/-- The *http.Response of the upstream: the handler reads the body, the status code is there. -/
structure UpstreamResponse where
  statusCode : Nat
  body : BodyRead

/-- The world around one call of the handler. -/
structure World where
  /-- the environment of the process when the call starts -/
  env : Environ
  /-- the file .env as godotenv reads it: its variables, or the error of reading or parsing -/
  dotenv : Except String (String → Option String)
  /-- what http.Get returns for a URL: a response, or the error of the request -/
  upstream : String → Except String UpstreamResponse

/-- A call the handler makes to the outside. -/
inductive Effect where
  | loadDotenv (file : String)
  | httpGet (url : String)
  deriving DecidableEq, Repr

/-- How a call of the handler ends. -/
inductive Outcome where
  /-- the handler returns, the response is written -/
  | response (r : Response)
  /-- log.Fatalf: the message is logged and the process exits with status 1 -/
  | fatal (msg : String)
  /-- a run-time panic before anything is written: net/http recovers it, logs it and closes
  the connection, no response is sent -/
  | panic (msg : String)
  deriving DecidableEq, Repr

/-- A call of the handler: how it ends, the calls it made in order, and the environment of
the process afterwards. -/
structure Result where
  outcome : Outcome
  effects : List Effect
  env : Environ

/-- The format "http://api.openweathermap.org/data/2.5/weather?q=%s&appid=%s&units=metric"
applied to city and apiKey: a %s verb writes its string as it is. -/
def weatherURL (city apiKey : String) : String :=
  "http://api.openweathermap.org/data/2.5/weather?q=" ++ city ++ "&appid=" ++ apiKey ++
    "&units=metric"

/-! ## main.go -/

/-- The handler handleWeather(w, r) of main.go, lines 27 to 70, statement by statement:
the city is read from the query and required; the file .env is loaded into the environment
(a failure is fatal); the key is read with os.Getenv and the URL formatted; http.Get,
ioutil.ReadAll and json.Unmarshal each answer 500 on an error; the response struct is built
from Main.Temp and Weather[0].Description (index 0 of an empty slice panics); the header is
set and the struct encoded. -/
def handleWeather (r : Request) (w : World) : Result :=
  let city := r.query.Get "city"
  if city = "" then
    ⟨.response (httpError "City parameter is required" StatusBadRequest), [], w.env⟩
  else
    match w.dotenv with
    | .error err =>
      ⟨.fatal ("Error loading .env file: " ++ err), [.loadDotenv ".env"], w.env⟩
    | .ok file =>
      let env := godotenvLoad w.env file
      let apiKey := Getenv env "openWeatherKey"
      let url := weatherURL city apiKey
      let effects := [.loadDotenv ".env", .httpGet url]
      match w.upstream url with
      | .error _ =>
        ⟨.response (httpError "Error fetching weather data" StatusInternalServerError),
          effects, env⟩
      | .ok resp =>
        match resp.body with
        | .error _ =>
          ⟨.response (httpError "Error reading response body" StatusInternalServerError),
            effects, env⟩
        | .ok body =>
          match unmarshal body with
          | .error _ =>
            ⟨.response (httpError "Error parsing JSON" StatusInternalServerError),
              effects, env⟩
          | .ok weatherData =>
            match weatherData.Weather with
            | [] =>
              ⟨.panic "runtime error: index out of range [0] with length 0", effects, env⟩
            | first :: _ =>
              let response : WeatherResponse := ⟨weatherData.Main.Temp, first.Description⟩
              ⟨.response ⟨StatusOK, [("Content-Type", "application/json")],
                encodeResponse response⟩, effects, env⟩

/-! ## The serving process

main registers handleWeather and serves until the process ends. Of the process only the
environment lasts from one request to the next. -/

/-- The process between two requests: running with its environment, or exited. -/
inductive Process where
  | running (env : Environ)
  | exited

/-- What a client and the outside see of one request. -/
structure Served where
  process : Process
  response : Option Response
  effects : List Effect

/-- One request to /weather served by the process: log.Fatalf ends the process, a panic of
the handler is recovered by net/http and the process goes on, and an exited process answers
nothing. -/
def serve (dotenv : Except String (String → Option String))
    (upstream : String → Except String UpstreamResponse) (p : Process) (r : Request) : Served :=
  match p with
  | .exited => ⟨.exited, none, []⟩
  | .running env =>
    let res := handleWeather r ⟨env, dotenv, upstream⟩
    match res.outcome with
    | .response resp => ⟨.running res.env, some resp, res.effects⟩
    | .fatal _ => ⟨.exited, none, res.effects⟩
    | .panic _ => ⟨.running res.env, none, res.effects⟩

/-! ## Reading a URL back

How a server reads the query of a URL: the fragment starts at the first #, the query at the
first ?, parameters are separated by &, key and value by the first =, and %XY stands for a
byte. Used to state what the upstream receives. -/

/-- The text before the first sep, and the text after it when there is one. -/
def cutAt (sep : Char) : List Char → List Char × Option (List Char)
  | [] => ([], none)
  | c :: cs =>
    if c = sep then ([], some cs)
    else ((c :: (cutAt sep cs).1), (cutAt sep cs).2)

/-- The pieces between the occurrences of sep. -/
def splitOn (sep : Char) : List Char → List (List Char)
  | [] => [[]]
  | c :: cs =>
    if c = sep then [] :: splitOn sep cs
    else
      match splitOn sep cs with
      | [] => [[c]]
      | p :: ps => (c :: p) :: ps

/-- The bytes of a character in UTF-8. -/
def utf8Char (c : Char) : List Nat := (String.utf8EncodeChar c).map UInt8.toNat

/-- The bytes of a string. -/
def utf8Bytes (s : String) : List Nat := s.data.flatMap utf8Char

/-- Where percent-decoding stands: between characters, after a %, after a % and a digit. -/
inductive PercentState where
  | plain
  | percent
  | digit (x : Nat)

/-- Percent-decoding from a state, character by character. -/
def percentDecodeFrom : PercentState → List Char → Option (List Nat)
  | .plain, [] => some []
  | _, [] => none
  | .plain, c :: cs =>
    if c = '%' then percentDecodeFrom .percent cs
    else
      match percentDecodeFrom .plain cs with
      | some r => some (utf8Char c ++ r)
      | none => none
  | .percent, c :: cs =>
    match hexVal c with
    | some x => percentDecodeFrom (.digit x) cs
    | none => none
  | .digit x, c :: cs =>
    match hexVal c, percentDecodeFrom .plain cs with
    | some y, some r => some ((16 * x + y) :: r)
    | _, _ => none

/-- Percent-decoding: the bytes a query text stands for, none when a % is not followed by
two hexadecimal digits. -/
def percentDecode (l : List Char) : Option (List Nat) := percentDecodeFrom .plain l

/-- One parameter key=value, decoded. -/
def decodeParameter (piece : List Char) : Option (List Nat × List Nat) :=
  match percentDecode (cutAt '=' piece).1, percentDecode ((cutAt '=' piece).2.getD []) with
  | some k, some v => some (k, v)
  | _, _ => none

/-- The parameters of the pieces of a query, none when one cannot be decoded. -/
def decodeParameters : List (List Char) → Option (List (List Nat × List Nat))
  | [] => some []
  | p :: ps =>
    match decodeParameter p, decodeParameters ps with
    | some x, some xs => some (x :: xs)
    | _, _ => none

/-- The fragment of a URL, none when it has none. -/
def urlFragment (url : String) : Option (List Char) := (cutAt '#' url.data).2

/-- The parameters of the query of a URL in order, none when one cannot be decoded. -/
def urlParameters (url : String) : Option (List (List Nat × List Nat)) :=
  match (cutAt '?' (cutAt '#' url.data).1).2 with
  | none => some []
  | some q => decodeParameters (splitOn '&' q)

/-- The three parameters q = city, appid = apiKey, units = metric. -/
def expectedParameters (city apiKey : String) : List (List Nat × List Nat) :=
  [(utf8Bytes "q", utf8Bytes city), (utf8Bytes "appid", utf8Bytes apiKey),
   (utf8Bytes "units", utf8Bytes "metric")]

/-! ## Documents with a missing field -/

/-- No member of the object names the field. -/
def lacksKey (ms : List (String × Json)) (field : String) : Bool :=
  ms.all (fun m => !keyMatches m.1 field)

/-- The member main of the members, if there is one, gives no temp: it is null or an object
without the key temp. -/
def mainLacksTemp (m : String × Json) : Bool :=
  !keyMatches m.1 "main" ||
    match m.2 with
    | .null => true
    | .object ms => lacksKey ms "temp"
    | _ => false

/-- The document is an object that gives no main.temp: main is missing, or has no temp. -/
def lacksTemp (doc : Json) : Bool :=
  match doc with
  | .object ms => ms.all mainLacksTemp
  | _ => false

/-- The values of the members weather of an object, in order. -/
def weatherMembers : List (String × Json) → List Json
  | [] => []
  | m :: ms =>
    if keyMatches m.1 "main" then weatherMembers ms
    else if keyMatches m.1 "weather" then m.2 :: weatherMembers ms
    else weatherMembers ms

/-- The document is an object with one member weather, a sequence that starts with an
element that gives no description: the element is null or an object without the key
description. -/
def lacksFirstDescription (doc : Json) : Bool :=
  match doc with
  | .object ms =>
    match weatherMembers ms with
    | [.array (.null :: _)] => true
    | [.array (.object es :: _)] => lacksKey es "description"
    | _ => false
  | _ => false

/-! ## Sample inputs -/

/-- The request GET /weather?city=London. -/
def londonRequest : Request := ⟨[("city", "London")]⟩

/-- A file .env that defines openWeatherKey. -/
def sampleDotenv : String → Option String :=
  fun key => if key = "openWeatherKey" then some "abc123" else none

/-- An environment with no variable set. -/
def emptyEnviron : Environ := fun _ => none

/-- A world whose upstream answers every URL with the given result. -/
def worldWith (result : Except String UpstreamResponse) : World :=
  ⟨emptyEnviron, .ok sampleDotenv, fun _ => result⟩

/-- A world whose upstream answers every URL with status 200 and the given body. -/
def worldWithBody (body : String) : World := worldWith (.ok ⟨200, .ok body⟩)

/-- The sample body of the upstream. -/
def clearSkyBody : String :=
  "\x7b\"main\":\x7b\"temp\":21.5\x7d,\"weather\":[\x7b\"description\":\"clear sky\"\x7d]\x7d"

/-- A body with an empty weather sequence. -/
def emptyWeatherBody : String := "\x7b\"main\":\x7b\"temp\":21.5\x7d,\"weather\":[]\x7d"

/-- A body without the member main. -/
def noMainBody : String := "\x7b\"weather\":[\x7b\"description\":\"clear sky\"\x7d]\x7d"

/-- The empty object. -/
def emptyObjectBody : String := "\x7b\x7d"

/-- A body with three members weather, of two, one and three elements. -/
def repeatedWeatherBody : String :=
  "\x7b\"weather\":[\x7b\"description\":\"a\"\x7d,\x7b\"description\":\"b\"\x7d]," ++
  "\"weather\":[\x7b\x7d],\"weather\":[null,\x7b\x7d,\x7b\x7d]\x7d"

/-- A body whose weather element has no description. -/
def noDescriptionBody : String := "\x7b\"main\":\x7b\"temp\":21.5\x7d,\"weather\":[\x7b\x7d]\x7d"

/-- The float64 21.5 = 6051711999279104 * 2^(-48). -/
def temp21_5 : Float64 := ⟨false, 6051711999279104, 1026⟩

/-! ## Properties of the float64 conversions -/

theorem findExp_eq (n den : Nat) : ∀ (fuel start E : Nat), start ≤ E → E ≤ start + fuel →
    (∀ e', start ≤ e' → e' < E → den * 2 ^ (e' + 53) ≤ n) → n < den * 2 ^ (E + 53) →
    findExp fuel n den start = E := by
  intro fuel
  induction fuel with
  | zero =>
    intro start E h1 h2 _ _
    simp only [findExp]
    omega
  | succ fuel ih =>
    intro start E h1 h2 hbelow hE
    simp only [findExp]
    by_cases hlt : n < den * 2 ^ (start + 53)
    · rw [if_pos hlt]
      by_contra hne
      have := hbelow start (le_refl _) (by omega)
      omega
    · rw [if_neg hlt]
      have hne : start ≠ E := by
        intro h
        rw [h] at hlt
        exact hlt hE
      exact ih (start + 1) E (by omega) (by omega)
        (fun e' h3 h4 => hbelow e' (by omega) h4) hE

theorem findExp_at (n den E : Nat) (h1 : E = 0 ∨ 2 ^ 52 * (den * 2 ^ E) ≤ n)
    (h2 : n < 2 ^ 53 * (den * 2 ^ E)) (hE : E ≤ 2046) : findExp 2046 n den 0 = E := by
  apply findExp_eq n den 2046 0 E (Nat.zero_le _) (by omega)
  · intro e' _ he'
    have hE0 : 2 ^ 52 * (den * 2 ^ E) ≤ n := by
      rcases h1 with h | h
      · omega
      · exact h
    have hpow : 2 ^ (e' + 53) ≤ 2 ^ (E + 52) := Nat.pow_le_pow_right (by norm_num) (by omega)
    calc den * 2 ^ (e' + 53) ≤ den * 2 ^ (E + 52) := Nat.mul_le_mul_left _ hpow
      _ = 2 ^ 52 * (den * 2 ^ E) := by rw [pow_add]; ring
      _ ≤ n := hE0
  · calc n < 2 ^ 53 * (den * 2 ^ E) := h2
      _ = den * 2 ^ (E + 53) := by rw [pow_add]; ring

theorem roundToFloat64_eq (num den E q r : Nat) (hnum : num ≠ 0)
    (hE : findExp 2046 (num * 2 ^ 1074) den 0 = E)
    (hq : num * 2 ^ 1074 = q * (den * 2 ^ E) + r) (hr : r < den * 2 ^ E) :
    roundToFloat64 num den =
      if (if den * 2 ^ E < 2 * r ∨ (2 * r = den * 2 ^ E ∧ q % 2 = 1) then q + 1 else q) = 2 ^ 53
      then (if 2045 < E + 1 then none else some (2 ^ 52, E + 1))
      else if 2045 < E then none
      else some ((if den * 2 ^ E < 2 * r ∨ (2 * r = den * 2 ^ E ∧ q % 2 = 1) then q + 1 else q), E) := by
  have hpos : 0 < den * 2 ^ E := by omega
  have hdm := (Nat.div_mod_unique hpos).2 ⟨(by rw [hq]; ring : r + den * 2 ^ E * q = num * 2 ^ 1074), hr⟩
  unfold roundToFloat64
  rw [if_neg hnum]
  simp only [hE, hdm.1, hdm.2]

theorem four_sub_mul (m B k : Nat) (h : k ≤ 4 * m) :
    (4 * m - k) * B + k * B = 4 * (m * B) := by
  rw [← add_mul, Nat.sub_add_cancel h]; ring

theorem roundToFloat64_of_between (num den m e : Nat) (hden : 0 < den) (hm : 0 < m)
    (hm53 : m < 2 ^ 53) (hnorm : 0 < e → 2 ^ 52 ≤ m) (he : e ≤ 2045)
    (hlo : (4 * m - (if m = 2 ^ 52 ∧ 0 < e then 1 else 2)) * 2 ^ e * den ≤ num * 2 ^ 1076)
    (hhi : num * 2 ^ 1076 ≤ (4 * m + 2) * 2 ^ e * den)
    (hodd : m % 2 = 1 → (4 * m - 2) * 2 ^ e * den < num * 2 ^ 1076 ∧
      num * 2 ^ 1076 < (4 * m + 2) * 2 ^ e * den) :
    roundToFloat64 num den = some (m, e) := by
  have h1076 : (2 : Nat) ^ 1076 = 2 ^ 1074 * 4 := by norm_num
  have h53 : (2 : Nat) ^ 53 = 9007199254740992 := by norm_num
  have h52 : (2 : Nat) ^ 52 = 4503599627370496 := by norm_num
  rw [h52] at hnorm hlo
  rw [h53] at hm53
  obtain ⟨n, hn⟩ : ∃ n, n = num * 2 ^ 1074 := ⟨_, rfl⟩
  have h4 : num * 2 ^ 1076 = 4 * n := by rw [h1076, hn]; ring
  rw [h4] at hlo hhi hodd
  obtain ⟨B, hB⟩ : ∃ B, B = den * 2 ^ e := ⟨_, rfl⟩
  have hBpos : 0 < B := by rw [hB]; positivity
  obtain ⟨P, hP⟩ : ∃ P, P = m * B := ⟨_, rfl⟩
  have e1 : ∀ k, k * 2 ^ e * den = k * B := by intro k; rw [hB]; ring
  simp only [e1] at hlo hhi hodd
  have hnum : num ≠ 0 := by
    intro h0
    rw [h0, Nat.zero_mul] at hn
    have : 0 < (4 * m - if m = 4503599627370496 ∧ 0 < e then 1 else 2) * B :=
      Nat.mul_pos (by split <;> omega) hBpos
    rw [hn] at hlo
    omega
  have hround : ∀ E q r, findExp 2046 n den 0 = E → n = q * (den * 2 ^ E) + r →
      r < den * 2 ^ E → roundToFloat64 num den =
      if (if den * 2 ^ E < 2 * r ∨ (2 * r = den * 2 ^ E ∧ q % 2 = 1) then q + 1 else q) = 2 ^ 53
      then (if 2045 < E + 1 then none else some (2 ^ 52, E + 1))
      else if 2045 < E then none
      else some ((if den * 2 ^ E < 2 * r ∨ (2 * r = den * 2 ^ E ∧ q % 2 = 1) then q + 1 else q), E) := by
    intro E q r h1 h2 h3
    rw [hn] at h1 h2
    exact roundToFloat64_eq num den E q r hnum h1 h2 h3
  clear hn h4 h1076 e1
  have hhi2 : 4 * n ≤ 4 * P + 2 * B := by rw [hP]; linarith
  have hoddhi : m % 2 = 1 → 4 * n < 4 * P + 2 * B := by
    intro h; have := (hodd h).2; rw [hP]; linarith
  have hoddlo : m % 2 = 1 → 4 * P < 4 * n + 2 * B := by
    intro h
    have := (hodd h).1
    have h2 : (4 * m - 2) * B + 2 * B = 4 * P := by
      rw [hP]; exact four_sub_mul m B 2 (by omega)
    omega
  have hPle : P + B ≤ 9007199254740992 * B := by
    have : (m + 1) * B ≤ 9007199254740992 * B := Nat.mul_le_mul_right _ (by omega)
    rw [hP]; linarith
  by_cases hup : P ≤ n
  · -- the number is at or above the float64
    have hE : findExp 2046 n den 0 = e := by
      apply findExp_at n den e _ _ (by omega)
      · by_cases h0 : e = 0
        · left; exact h0
        · right
          rw [← hB, h52]
          have : 4503599627370496 * B ≤ m * B := Nat.mul_le_mul_right _ (hnorm (by omega))
          omega
      · rw [← hB, h53]; omega
    rw [hround e m (n - P) hE (by rw [← hB, ← hP]; omega) (by rw [← hB]; omega)]
    rw [← hB, h53]
    have hno : ¬ (B < 2 * (n - P) ∨ (2 * (n - P) = B ∧ m % 2 = 1)) := by
      intro h
      rcases h with h | ⟨h, hmo⟩
      · omega
      · have := hoddhi hmo; omega
    rw [if_neg hno, if_neg (by omega), if_neg (by omega)]
  · by_cases hb : m = 4503599627370496 ∧ 0 < e
    · -- just below the lowest float64 of an exponent
      rw [if_pos hb] at hlo
      obtain ⟨hm2, hepos⟩ := hb
      obtain ⟨B2, hB2⟩ : ∃ B2, B2 = den * 2 ^ (e - 1) := ⟨_, rfl⟩
      have hBB : B = 2 * B2 := by
        rw [hB, hB2]
        have : e = (e - 1) + 1 := by omega
        conv_lhs => rw [this, pow_succ]
        ring
      have hPB : P = 9007199254740992 * B2 := by rw [hP, hm2, hBB]; ring
      have hlo2 : 4 * P ≤ 4 * n + B := by
        have h2 : (4 * m - 1) * B + 1 * B = 4 * P := by
          rw [hP]; exact four_sub_mul m B 1 (by omega)
        omega
      have hE : findExp 2046 n den 0 = e - 1 := by
        apply findExp_at n den (e - 1) _ _ (by omega)
        · right; rw [← hB2, h52]; omega
        · rw [← hB2, h53]; omega
      rw [hround (e - 1) 9007199254740991 (n - 9007199254740991 * B2) hE
        (by rw [← hB2]; omega) (by rw [← hB2]; omega)]
      rw [← hB2, h53]
      have hyes : B2 < 2 * (n - 9007199254740991 * B2) ∨
          (2 * (n - 9007199254740991 * B2) = B2 ∧ 9007199254740991 % 2 = 1) := by
        by_cases h : B2 < 2 * (n - 9007199254740991 * B2)
        · left; exact h
        · right; constructor
          · omega
          · norm_num
      rw [if_pos hyes, if_pos (by norm_num), if_neg (by omega)]
      have : e - 1 + 1 = e := by omega
      rw [this, hm2, h52]
    · -- below the float64, above the middle to the one before
      rw [if_neg hb] at hlo
      have hlo2 : 4 * P ≤ 4 * n + 2 * B := by
        have h2 : (4 * m - 2) * B + 2 * B = 4 * P := by
          rw [hP]; exact four_sub_mul m B 2 (by omega)
        omega
      have hm1 : (m - 1) * B + B = P := by
        rw [hP]
        have : (m - 1) * B + 1 * B = m * B := by rw [← add_mul]; congr 1; omega
        omega
      obtain ⟨Q, hQ⟩ : ∃ Q, Q = (m - 1) * B := ⟨_, rfl⟩
      rw [← hQ] at hm1
      have hE : findExp 2046 n den 0 = e := by
        apply findExp_at n den e _ _ (by omega)
        · by_cases h0 : e = 0
          · left; exact h0
          · right
            rw [← hB, h52]
            have hm3 : 4503599627370496 + 1 ≤ m := by
              have := hnorm (by omega)
              by_contra hc
              exact hb ⟨by omega, by omega⟩
            have : (4503599627370496 + 1) * B ≤ m * B := Nat.mul_le_mul_right _ hm3
            have h3 : (4503599627370496 + 1) * B = 4503599627370496 * B + B := by ring
            omega
        · rw [← hB, h53]; omega
      rw [hround e (m - 1) (n - Q) hE (by rw [← hB, ← hQ]; omega) (by rw [← hB]; omega)]
      rw [← hB, h53]
      have hyes : B < 2 * (n - Q) ∨ (2 * (n - Q) = B ∧ (m - 1) % 2 = 1) := by
        by_cases h : B < 2 * (n - Q)
        · left; exact h
        · right
          constructor
          · omega
          · by_contra hpar
            have hmo : m % 2 = 1 := by omega
            have := hoddlo hmo
            omega
      rw [if_pos hyes]
      have : m - 1 + 1 = m := by omega
      rw [this, if_neg (by omega), if_neg (by omega)]

theorem findExp_spec (n den : Nat) : ∀ (fuel start : Nat),
    start ≤ findExp fuel n den start ∧ findExp fuel n den start ≤ start + fuel ∧
    (findExp fuel n den start < start + fuel → n < den * 2 ^ (findExp fuel n den start + 53)) ∧
    (start < findExp fuel n den start → den * 2 ^ (findExp fuel n den start + 52) ≤ n) := by
  intro fuel
  induction fuel with
  | zero =>
    intro start
    simp only [findExp]
    omega
  | succ fuel ih =>
    intro start
    simp only [findExp]
    by_cases hlt : n < den * 2 ^ (start + 53)
    · rw [if_pos hlt]
      refine ⟨le_refl _, by omega, fun _ => hlt, fun h => absurd h (lt_irrefl _)⟩
    · rw [if_neg hlt]
      obtain ⟨h1, h2, h3, h4⟩ := ih (start + 1)
      refine ⟨by omega, by omega, fun h => h3 (by omega), ?_⟩
      intro _
      by_cases heq : findExp fuel n den (start + 1) = start + 1
      · rw [heq]
        have : start + 1 + 52 = start + 53 := by omega
        rw [this]
        omega
      · exact h4 (by omega)

/-- What roundToFloat64 returns stands for a float64. -/
theorem roundToFloat64_valid (num den m e : Nat) (hden : 0 < den)
    (h : roundToFloat64 num den = some (m, e)) :
    m < 2 ^ 53 ∧ (0 < e → 2 ^ 52 ≤ m) ∧ e ≤ 2045 := by
  unfold roundToFloat64 at h
  by_cases hnum : num = 0
  · rw [if_pos hnum] at h
    cases h
    norm_num
  · rw [if_neg hnum] at h
    simp only at h
    obtain ⟨n, hn⟩ : ∃ n, n = num * 2 ^ 1074 := ⟨_, rfl⟩
    rw [← hn] at h
    obtain ⟨E, hE⟩ : ∃ E, E = findExp 2046 n den 0 := ⟨_, rfl⟩
    obtain ⟨_, h2, h3, h4⟩ := findExp_spec n den 2046 0
    rw [← hE] at h h2 h3 h4
    obtain ⟨D, hD⟩ : ∃ D, D = den * 2 ^ E := ⟨_, rfl⟩
    have hDpos : 0 < D := by rw [hD]; positivity
    rw [← hD] at h
    clear hn
    have h53 : (2 : Nat) ^ 53 = 9007199254740992 := by norm_num
    have h52 : (2 : Nat) ^ 52 = 4503599627370496 := by norm_num
    rw [h53, h52] at h ⊢
    have hq53 : E < 2046 → n / D < 9007199254740992 := by
      intro hlt
      have := h3 (by omega)
      rw [pow_add, ← mul_assoc, ← hD, h53] at this
      exact Nat.div_lt_of_lt_mul (by linarith)
    have hq52 : 0 < E → 4503599627370496 ≤ n / D := by
      intro hpos
      have := h4 (by omega)
      rw [pow_add, ← mul_assoc, ← hD, h52] at this
      exact (Nat.le_div_iff_mul_le hDpos).2 (by linarith)
    obtain ⟨q1, hq1⟩ : ∃ q1, q1 = if D < 2 * (n % D) ∨ (2 * (n % D) = D ∧ n / D % 2 = 1)
        then n / D + 1 else n / D := ⟨_, rfl⟩
    rw [← hq1] at h
    have hq1' : q1 = n / D ∨ q1 = n / D + 1 := by
      rw [hq1]; split
      · right; rfl
      · left; rfl
    by_cases hc : q1 = 9007199254740992
    · rw [if_pos hc] at h
      by_cases ho : 2045 < E + 1
      · rw [if_pos ho] at h; cases h
      · rw [if_neg ho] at h
        cases h
        refine ⟨by omega, fun _ => le_refl _, by omega⟩
    · rw [if_neg hc] at h
      by_cases ho : 2045 < E
      · rw [if_pos ho] at h; cases h
      · rw [if_neg ho] at h
        cases h
        have hlt := hq53 (by omega)
        refine ⟨by omega, ?_, by omega⟩
        intro hpos
        have := hq52 hpos
        omega

/-- The bounds roundsTo checks, as propositions. -/
theorem roundsTo_bounds (m e : Nat) (d : Decimal) (h : roundsTo m e d = true) :
    (4 * m - (if m = 2 ^ 52 ∧ 0 < e then 1 else 2)) * 2 ^ e * 10 ^ d.down ≤
      d.c * 10 ^ d.up * 2 ^ 1076 ∧
    d.c * 10 ^ d.up * 2 ^ 1076 ≤ (4 * m + 2) * 2 ^ e * 10 ^ d.down ∧
    (m % 2 = 1 →
      (4 * m - (if m = 2 ^ 52 ∧ 0 < e then 1 else 2)) * 2 ^ e * 10 ^ d.down <
        d.c * 10 ^ d.up * 2 ^ 1076 ∧
      d.c * 10 ^ d.up * 2 ^ 1076 < (4 * m + 2) * 2 ^ e * 10 ^ d.down) := by
  unfold roundsTo at h
  simp only at h
  by_cases hpar : m % 2 = 0
  · rw [if_pos hpar] at h
    have h2 := of_decide_eq_true h
    exact ⟨h2.1, h2.2, fun ho => by omega⟩
  · rw [if_neg hpar] at h
    have h2 := of_decide_eq_true h
    exact ⟨le_of_lt h2.1, le_of_lt h2.2, fun _ => h2⟩

/-- A decimal that roundsTo accepts is read back as the float64. -/
theorem roundToFloat64_of_roundsTo (m e : Nat) (d : Decimal) (hm : 0 < m)
    (hm53 : m < 2 ^ 53) (hnorm : 0 < e → 2 ^ 52 ≤ m) (he : e ≤ 2045)
    (h : roundsTo m e d = true) :
    roundToFloat64 d.fraction.1 d.fraction.2 = some (m, e) := by
  obtain ⟨hlo, hhi, hodd⟩ := roundsTo_bounds m e d h
  have hoddne : m % 2 = 1 → ¬ (m = 2 ^ 52 ∧ 0 < e) := by
    intro ho hc
    have : (2 : Nat) ^ 52 % 2 = 0 := by norm_num
    rw [hc.1] at ho
    omega
  obtain ⟨T, hT⟩ : ∃ T, T = 2 ^ 1076 := ⟨_, rfl⟩
  obtain ⟨L, hL⟩ : ∃ L, L = (4 * m - (if m = 2 ^ 52 ∧ 0 < e then 1 else 2)) * 2 ^ e := ⟨_, rfl⟩
  obtain ⟨H, hH⟩ : ∃ H, H = (4 * m + 2) * 2 ^ e := ⟨_, rfl⟩
  rw [← hT] at hlo hhi hodd
  rw [← hL] at hlo hodd
  rw [← hH] at hhi hodd
  have key : ∀ num den, 0 < den → (L * den ≤ num * T) → (num * T ≤ H * den) →
      (m % 2 = 1 → L * den < num * T ∧ num * T < H * den) →
      roundToFloat64 num den = some (m, e) := by
    intro num den hden h1 h2 h3
    apply roundToFloat64_of_between num den m e hden hm hm53 hnorm he
    · rw [← hL, ← hT]; exact h1
    · rw [← hH, ← hT]; exact h2
    · intro ho
      have := h3 ho
      rw [hL, if_neg (hoddne ho), hH, hT] at this
      exact this
  unfold Decimal.fraction
  by_cases hud : d.down ≤ d.up
  · rw [if_pos hud]
    simp only
    have hpow : 10 ^ d.up = 10 ^ (d.up - d.down) * 10 ^ d.down := by
      rw [← pow_add]; congr 1; omega
    have hp : 0 < 10 ^ d.down := by positivity
    rw [hpow] at hlo hhi hodd
    have e1 : d.c * (10 ^ (d.up - d.down) * 10 ^ d.down) * T =
        (d.c * 10 ^ (d.up - d.down) * T) * 10 ^ d.down := by ring
    rw [e1] at hlo hhi hodd
    apply key _ 1 (by norm_num)
    · rw [mul_one]; exact Nat.le_of_mul_le_mul_right hlo hp
    · rw [mul_one]; exact Nat.le_of_mul_le_mul_right hhi hp
    · intro ho
      rw [mul_one, mul_one]
      exact ⟨Nat.lt_of_mul_lt_mul_right (hodd ho).1, Nat.lt_of_mul_lt_mul_right (hodd ho).2⟩
  · rw [if_neg hud]
    simp only
    have hpow : 10 ^ d.down = 10 ^ (d.down - d.up) * 10 ^ d.up := by
      rw [← pow_add]; congr 1; omega
    have hp : 0 < 10 ^ d.up := by positivity
    rw [hpow] at hlo hhi hodd
    have e1 : d.c * 10 ^ d.up * T = (d.c * T) * 10 ^ d.up := by ring
    have e2 : ∀ X, X * (10 ^ (d.down - d.up) * 10 ^ d.up) =
        (X * 10 ^ (d.down - d.up)) * 10 ^ d.up := by intro X; ring
    rw [e1, e2] at hlo hhi hodd
    rw [e2] at hodd
    apply key _ _ (by positivity)
    · exact Nat.le_of_mul_le_mul_right hlo hp
    · exact Nat.le_of_mul_le_mul_right hhi hp
    · intro ho
      exact ⟨Nat.lt_of_mul_lt_mul_right (hodd ho).1, Nat.lt_of_mul_lt_mul_right (hodd ho).2⟩

theorem roundsTo_exactDecimal (m e : Nat) (hm : 0 < m) :
    roundsTo m e (exactDecimal m e) = true := by
  have hsub : ∀ k, k ≤ 2 → 0 < k → (4 * m - k) < 4 * m := by intro k _ _; omega
  have hk : (if m = 2 ^ 52 ∧ 0 < e then 1 else 2) ≤ 2 ∧ 0 < (if m = 2 ^ 52 ∧ 0 < e then 1 else 2) := by
    split <;> omega
  have hlt := hsub _ hk.1 hk.2
  obtain ⟨k, hkdef⟩ : ∃ k, k = (4 * m - (if m = 2 ^ 52 ∧ 0 < e then 1 else 2)) := ⟨_, rfl⟩
  rw [← hkdef] at hlt
  have hx : (exactDecimal m e).c * 10 ^ (exactDecimal m e).up * 2 ^ 1076 =
      4 * m * 2 ^ e * 10 ^ (exactDecimal m e).down := by
    unfold exactDecimal
    by_cases h : 1074 ≤ e
    · rw [if_pos h]
      simp only [pow_zero, mul_one]
      have : e = (e - 1074) + 1074 := by omega
      conv_rhs => rw [this, pow_add]
      have h2 : (2 : Nat) ^ 1076 = 2 ^ 1074 * 4 := by norm_num
      rw [h2]
      ring
    · rw [if_neg h]
      simp only [pow_zero, mul_one]
      have h10 : (10 : Nat) ^ (1074 - e) = 2 ^ (1074 - e) * 5 ^ (1074 - e) := by
        rw [← mul_pow]; norm_num
      have h2 : (2 : Nat) ^ 1076 = 4 * (2 ^ e * 2 ^ (1074 - e)) := by
        rw [← pow_add]
        have : e + (1074 - e) = 1074 := by omega
        rw [this]; norm_num
      rw [h10, h2]
      ring
  unfold roundsTo
  simp only
  rw [hx, ← hkdef]
  have hpos : 0 < 2 ^ e * 10 ^ (exactDecimal m e).down := by positivity
  have h1 : k * 2 ^ e * 10 ^ (exactDecimal m e).down <
      4 * m * 2 ^ e * 10 ^ (exactDecimal m e).down := by
    rw [mul_assoc, mul_assoc (4 * m)]
    exact Nat.mul_lt_mul_of_pos_right hlt hpos
  have h2 : 4 * m * 2 ^ e * 10 ^ (exactDecimal m e).down <
      (4 * m + 2) * 2 ^ e * 10 ^ (exactDecimal m e).down := by
    rw [mul_assoc, mul_assoc (4 * m + 2)]
    exact Nat.mul_lt_mul_of_pos_right (by omega) hpos
  split
  · exact decide_eq_true ⟨le_of_lt h1, le_of_lt h2⟩
  · exact decide_eq_true ⟨h1, h2⟩

theorem roundsTo_shortest (m e : Nat) (hm : 0 < m) :
    ∀ fuel n, roundsTo m e (shortest m e fuel n) = true := by
  intro fuel
  induction fuel with
  | zero => intro n; exact roundsTo_exactDecimal m e hm
  | succ fuel ih =>
    intro n
    simp only [shortest]
    by_cases h1 : roundsTo m e (decimalBelow m e n) = true
    · by_cases h2 : roundsTo m e ⟨(decimalBelow m e n).c + 1, (decimalBelow m e n).up,
          (decimalBelow m e n).down⟩ = true
      · simp only [h1, h2, Bool.and_self, if_true]
        split
        · exact h1
        · exact h2
      · simp only [h1, h2, Bool.and_false, Bool.false_eq_true, if_false, if_true]
    · by_cases h2 : roundsTo m e ⟨(decimalBelow m e n).c + 1, (decimalBelow m e n).up,
          (decimalBelow m e n).down⟩ = true
      · simp only [h1, h2, Bool.false_and, Bool.false_eq_true, if_false, if_true]
      · simp only [h1, h2, Bool.false_and, Bool.false_eq_true, if_false]
        exact ih (n + 1)

theorem roundsTo_congr (m e : Nat) (d d' : Decimal) (hdown : d'.down = d.down)
    (hval : d'.c * 10 ^ d'.up = d.c * 10 ^ d.up) : roundsTo m e d' = roundsTo m e d := by
  unfold roundsTo
  simp only [hdown, hval]

theorem roundsTo_stripZeros (m e : Nat) : ∀ fuel d, roundsTo m e (stripZeros fuel d) = roundsTo m e d := by
  intro fuel
  induction fuel with
  | zero => intro d; rfl
  | succ fuel ih =>
    intro d
    simp only [stripZeros]
    split
    · rename_i hc
      rw [ih]
      apply roundsTo_congr
      · rfl
      · show d.c / 10 * 10 ^ (d.up + 1) = d.c * 10 ^ d.up
        rw [pow_succ]
        have : d.c = d.c / 10 * 10 := by omega
        conv_rhs => rw [this]
        ring
    · rfl

theorem roundsTo_shortestDecimal (m e : Nat) (hm : 0 < m) :
    roundsTo m e (shortestDecimal m e) = true := by
  unfold shortestDecimal
  simp only
  rw [roundsTo_stripZeros]
  exact roundsTo_shortest m e hm 17 1

theorem pos_of_roundsTo (m e : Nat) (d : Decimal) (hm : 0 < m) (h : roundsTo m e d = true) :
    0 < d.c := by
  obtain ⟨hlo, _, _⟩ := roundsTo_bounds m e d h
  by_contra hc
  have h0 : d.c = 0 := by omega
  rw [h0] at hlo
  simp only [zero_mul, Nat.le_zero, mul_eq_zero] at hlo
  have h2 : (2 : Nat) ^ e ≠ 0 := by positivity
  have h10 : (10 : Nat) ^ d.down ≠ 0 := by positivity
  have h4 : (4 * m - if m = 2 ^ 52 ∧ 0 < e then 1 else 2) ≠ 0 := by split <;> omega
  rcases hlo with (h | h) | h
  · exact h4 h
  · exact h2 h
  · exact h10 h

/-! ### Digits -/

theorem isDigit_digitChar (d : Nat) : isDigit (digitChar d) = true := by
  have h : ∀ k, k < 10 → isDigit (Char.ofNat ('0'.toNat + k)) = true := by decide
  exact h (d % 10) (Nat.mod_lt _ (by norm_num))

theorem digitChar_value (d : Nat) : (digitChar d).toNat - '0'.toNat = d % 10 := by
  have h : ∀ k, k < 10 → (Char.ofNat ('0'.toNat + k)).toNat - '0'.toNat = k := by decide
  exact h (d % 10) (Nat.mod_lt _ (by norm_num))

theorem isDigit_ne (c : Char) (h : isDigit c = true) :
    c ≠ '.' ∧ c ≠ 'e' ∧ c ≠ 'E' ∧ c ≠ '-' ∧ c ≠ '+' := by
  simp only [isDigit, Bool.and_eq_true, decide_eq_true_eq] at h
  refine ⟨?_, ?_, ?_, ?_, ?_⟩ <;> intro hc <;> rw [hc] at h <;> revert h <;> decide

theorem digitsValue_foldl (l : List Char) (acc : Nat) :
    l.foldl (fun acc c => acc * 10 + (c.toNat - '0'.toNat)) acc =
      acc * 10 ^ l.length + digitsValue l := by
  induction l generalizing acc with
  | nil => simp [digitsValue]
  | cons c cs ih =>
    simp only [List.foldl_cons, List.length_cons, digitsValue]
    rw [ih, ih (0 * 10 + _)]
    ring

theorem digitsValue_append (a b : List Char) :
    digitsValue (a ++ b) = digitsValue a * 10 ^ b.length + digitsValue b := by
  unfold digitsValue
  rw [List.foldl_append, digitsValue_foldl]
  rfl

theorem digitsValue_zeros (k : Nat) : digitsValue (List.replicate k '0') = 0 := by
  induction k with
  | zero => rfl
  | succ k ih =>
    rw [List.replicate_succ]
    have := digitsValue_append ['0'] (List.replicate k '0')
    simp only [List.singleton_append] at this
    rw [this, ih]
    simp [digitsValue]

theorem decimalDigitsAux_spec : ∀ (fuel c : Nat), c ≤ fuel →
    digitsValue (decimalDigitsAux fuel c) = c ∧
    (∀ ch ∈ decimalDigitsAux fuel c, isDigit ch = true) ∧
    decimalDigitsAux fuel c ≠ [] := by
  intro fuel
  induction fuel with
  | zero =>
    intro c hc
    have : c = 0 := by omega
    subst this
    refine ⟨by decide, by decide, by decide⟩
  | succ fuel ih =>
    intro c hc
    simp only [decimalDigitsAux]
    by_cases h : c < 10
    · rw [if_pos h]
      refine ⟨?_, ?_, by simp⟩
      · simp only [digitsValue, List.foldl_cons, List.foldl_nil, zero_mul, zero_add]
        rw [digitChar_value]
        omega
      · intro ch hch
        simp only [List.mem_singleton] at hch
        rw [hch]
        exact isDigit_digitChar c
    · rw [if_neg h]
      obtain ⟨h1, h2, h3⟩ := ih (c / 10) (by omega)
      refine ⟨?_, ?_, by simp⟩
      · rw [digitsValue_append, h1]
        simp only [List.length_singleton, pow_one, digitsValue, List.foldl_cons, List.foldl_nil,
          zero_mul, zero_add]
        rw [digitChar_value]
        omega
      · intro ch hch
        simp only [List.mem_append, List.mem_singleton] at hch
        rcases hch with hch | hch
        · exact h2 ch hch
        · rw [hch]
          exact isDigit_digitChar c

theorem digitsValue_decimalDigits (c : Nat) : digitsValue (decimalDigits c) = c :=
  (decimalDigitsAux_spec c c (le_refl _)).1

theorem isDigit_decimalDigits (c : Nat) : ∀ ch ∈ decimalDigits c, isDigit ch = true :=
  (decimalDigitsAux_spec c c (le_refl _)).2.1

theorem decimalDigits_ne_nil (c : Nat) : decimalDigits c ≠ [] :=
  (decimalDigitsAux_spec c c (le_refl _)).2.2

/-! ### Reading a number literal -/

theorem takeWhile_all (p : Char → Bool) (a : List Char) (h : ∀ y ∈ a, p y = true) :
    a.takeWhile p = a ∧ a.dropWhile p = [] := by
  induction a with
  | nil => exact ⟨rfl, rfl⟩
  | cons c cs ih =>
    have hc := h c (by simp)
    have := ih (fun y hy => h y (by simp [hy]))
    simp [List.takeWhile, List.dropWhile, hc, this.1, this.2]

theorem takeWhile_stop (p : Char → Bool) (a b : List Char) (x : Char)
    (h : ∀ y ∈ a, p y = true) (hx : p x = false) :
    (a ++ x :: b).takeWhile p = a ∧ (a ++ x :: b).dropWhile p = x :: b := by
  induction a with
  | nil => simp [List.takeWhile, List.dropWhile, hx]
  | cons c cs ih =>
    have hc := h c (by simp)
    have := ih (fun y hy => h y (by simp [hy]))
    simp [List.takeWhile, List.dropWhile, hc, this.1, this.2]

/-- The text of a fraction part: nothing, or a point and digits. -/
theorem readDecimal_plain (ip fr : List Char) (hip : ∀ ch ∈ ip, isDigit ch = true)
    (hfr : ∀ ch ∈ fr, isDigit ch = true) :
    readDecimal (ip ++ (if fr = [] then [] else '.' :: fr)) =
      if fr = [] then (digitsValue ip, 1) else (digitsValue (ip ++ fr), 10 ^ fr.length) := by
  have hne : ∀ ch, isDigit ch = true → notExp ch = true ∧ (ch != '.') = true := by
    intro ch h
    obtain ⟨h1, h2, h3, _, _⟩ := isDigit_ne ch h
    simp [notExp, h1, h2, h3]
  by_cases hfrnil : fr = []
  · subst hfrnil
    simp only [if_true, List.append_nil]
    unfold readDecimal
    simp only [(takeWhile_all notExp ip (fun y hy => (hne y (hip y hy)).1)).1,
      (takeWhile_all notExp ip (fun y hy => (hne y (hip y hy)).1)).2,
      (takeWhile_all (fun c => c != '.') ip (fun y hy => (hne y (hip y hy)).2)).1,
      (takeWhile_all (fun c => c != '.') ip (fun y hy => (hne y (hip y hy)).2)).2]
    simp [digitsValue]
  · simp only [if_neg hfrnil]
    have hall : ∀ y ∈ ip ++ '.' :: fr, notExp y = true := by
      intro y hy
      simp only [List.mem_append, List.mem_cons] at hy
      rcases hy with hy | hy | hy
      · exact (hne y (hip y hy)).1
      · rw [hy]; decide
      · exact (hne y (hfr y hy)).1
    have hdot := takeWhile_stop (fun c => c != '.') ip fr '.'
      (fun y hy => (hne y (hip y hy)).2) (by decide)
    unfold readDecimal
    simp only [(takeWhile_all notExp _ hall).1, (takeWhile_all notExp _ hall).2, hdot.1, hdot.2]
    have hlen : ¬ fr.length ≤ 0 := by
      cases fr with
      | nil => exact absurd rfl hfrnil
      | cons a b => simp
    simp [digitsValue, hlen]

theorem readDecimal_exp (ip fr ed : List Char) (neg : Bool)
    (hip : ∀ ch ∈ ip, isDigit ch = true) (hfr : ∀ ch ∈ fr, isDigit ch = true) :
    readDecimal (ip ++ (if fr = [] then [] else '.' :: fr) ++
        'e' :: (if neg then '-' else '+') :: ed) =
      if neg then (digitsValue (ip ++ fr), 10 ^ (digitsValue ed + fr.length))
      else if fr.length ≤ digitsValue ed then
        (digitsValue (ip ++ fr) * 10 ^ (digitsValue ed - fr.length), 1)
      else (digitsValue (ip ++ fr), 10 ^ (fr.length - digitsValue ed)) := by
  have hne : ∀ ch, isDigit ch = true → notExp ch = true ∧ (ch != '.') = true := by
    intro ch h
    obtain ⟨h1, h2, h3, _, _⟩ := isDigit_ne ch h
    simp [notExp, h1, h2, h3]
  have hmant : ∀ y ∈ ip ++ (if fr = [] then [] else '.' :: fr), notExp y = true := by
    intro y hy
    simp only [List.mem_append] at hy
    rcases hy with hy | hy
    · exact (hne y (hip y hy)).1
    · split at hy
      · simp at hy
      · simp only [List.mem_cons] at hy
        rcases hy with hy | hy
        · rw [hy]; decide
        · exact (hne y (hfr y hy)).1
  have hsplit := takeWhile_stop notExp (ip ++ (if fr = [] then [] else '.' :: fr))
    ((if neg then '-' else '+') :: ed) 'e' hmant (by decide)
  have hint : (ip ++ (if fr = [] then [] else '.' :: fr)).takeWhile (fun c => c != '.') = ip ∧
      ((ip ++ (if fr = [] then [] else '.' :: fr)).dropWhile (fun c => c != '.')).drop 1 = fr := by
    by_cases hfrnil : fr = []
    · subst hfrnil
      simp only [if_true, List.append_nil]
      have := takeWhile_all (fun c => c != '.') ip (fun y hy => (hne y (hip y hy)).2)
      rw [this.1, this.2]
      exact ⟨rfl, rfl⟩
    · simp only [if_neg hfrnil]
      have := takeWhile_stop (fun c => c != '.') ip fr '.'
        (fun y hy => (hne y (hip y hy)).2) (by decide)
      rw [this.1, this.2]
      exact ⟨rfl, rfl⟩
  unfold readDecimal
  simp only [hsplit.1, hsplit.2, hint.1, hint.2, List.drop_succ_cons, List.drop_zero,
    List.head?_cons]
  cases neg <;> simp

/-- The format %f is read back as the decimal. -/
theorem readDecimal_fmtF (ds : List Char) (up down : Nat)
    (hds : ∀ ch ∈ ds, isDigit ch = true) (hne : ds ≠ []) :
    readDecimal (fmtF ds up down) = (Decimal.mk (digitsValue ds) up down).fraction := by
  have hlen : 0 < ds.length := List.length_pos.2 hne
  unfold fmtF Decimal.fraction
  simp only
  by_cases h1 : down < ds.length + up
  · rw [if_pos h1]
    by_cases h2 : down ≤ up
    · -- the digits and zeros, no fraction
      rw [if_pos h2]
      have htake : ds.take (ds.length + up - down) = ds := List.take_of_length_le (by omega)
      have hdrop : ds.drop (ds.length + up - down) = [] := List.drop_of_length_le (by omega)
      rw [htake, hdrop, if_pos rfl]
      have hall : ∀ ch ∈ ds ++ List.replicate (ds.length + up - down - ds.length) '0',
          isDigit ch = true := by
        intro ch hch
        simp only [List.mem_append, List.mem_replicate] at hch
        rcases hch with hch | ⟨_, hch⟩
        · exact hds ch hch
        · rw [hch]; decide
      have := readDecimal_plain _ [] hall (by simp)
      simp only [if_true, List.append_nil] at this
      rw [this, digitsValue_append, digitsValue_zeros, List.length_replicate]
      have : ds.length + up - down - ds.length = up - down := by omega
      rw [this, add_zero]
    · -- a point inside the digits
      rw [if_neg h2]
      have hrep : ds.length + up - down - ds.length = 0 := by omega
      rw [hrep, List.replicate_zero, List.append_nil]
      have hdne : ds.drop (ds.length + up - down) ≠ [] := by
        intro hc
        have := congrArg List.length hc
        simp only [List.length_drop, List.length_nil] at this
        omega
      have := readDecimal_plain (ds.take (ds.length + up - down)) (ds.drop (ds.length + up - down))
        (fun ch hch => hds ch (List.mem_of_mem_take hch))
        (fun ch hch => hds ch (List.mem_of_mem_drop hch))
      rw [if_neg hdne] at this
      rw [if_neg hdne, this, if_neg hdne, List.take_append_drop, List.length_drop]
      have : ds.length - (ds.length + up - down) = down - up := by omega
      rw [this]
  · -- zero, a point, zeros and the digits
    rw [if_neg h1]
    have h2 : ¬ down ≤ up := by omega
    rw [if_neg h2]
    have hfr : ∀ ch ∈ List.replicate (down - (ds.length + up)) '0' ++ ds, isDigit ch = true := by
      intro ch hch
      simp only [List.mem_append, List.mem_replicate] at hch
      rcases hch with ⟨_, hch⟩ | hch
      · rw [hch]; decide
      · exact hds ch hch
    have hfrne : List.replicate (down - (ds.length + up)) '0' ++ ds ≠ [] := by
      simp [hne]
    have := readDecimal_plain ['0'] (List.replicate (down - (ds.length + up)) '0' ++ ds)
      (by decide) hfr
    rw [if_neg hfrne, if_neg hfrne] at this
    simp only [List.singleton_append] at this
    rw [this]
    have hv : digitsValue ('0' :: (List.replicate (down - (ds.length + up)) '0' ++ ds)) =
        digitsValue ds := by
      have e : '0' :: (List.replicate (down - (ds.length + up)) '0' ++ ds) =
          List.replicate (down - (ds.length + up) + 1) '0' ++ ds := by
        rw [List.replicate_succ]; rfl
      rw [e, digitsValue_append, digitsValue_zeros]
      simp
    rw [hv, List.length_append, List.length_replicate]
    have : down - (ds.length + up) + ds.length = down - up := by omega
    rw [this]

theorem fmtE_cons (d1 : Char) (rest : List Char) (up down : Nat) :
    fmtE (d1 :: rest) up down =
      if rest.length + 1 + up ≤ down then
        [d1] ++ (if rest = [] then [] else '.' :: rest) ++
          'e' :: '-' :: decimalDigits (down + 1 - (rest.length + 1 + up))
      else
        [d1] ++ (if rest = [] then [] else '.' :: rest) ++
          'e' :: '+' :: decimalDigits (rest.length + 1 + up - 1 - down) := by
  cases rest with
  | nil => simp [fmtE]
  | cons a b => simp [fmtE]

/-- The format %e is read back as the decimal. -/
theorem readDecimal_fmtE (ds : List Char) (up down : Nat)
    (hds : ∀ ch ∈ ds, isDigit ch = true) (hne : ds ≠ []) :
    readDecimal (fmtE ds up down) = (Decimal.mk (digitsValue ds) up down).fraction := by
  cases ds with
  | nil => exact absurd rfl hne
  | cons d1 rest =>
    have hd1 : ∀ ch ∈ [d1], isDigit ch = true := by
      intro ch hch
      simp only [List.mem_singleton] at hch
      rw [hch]
      exact hds d1 (by simp)
    have hrest : ∀ ch ∈ rest, isDigit ch = true := fun ch hch => hds ch (by simp [hch])
    have hval : digitsValue ([d1] ++ rest) = digitsValue (d1 :: rest) := rfl
    rw [fmtE_cons]
    unfold Decimal.fraction
    simp only
    by_cases h1 : rest.length + 1 + up ≤ down
    · rw [if_pos h1]
      have h : readDecimal ([d1] ++ (if rest = [] then [] else '.' :: rest) ++
          'e' :: '-' :: decimalDigits (down + 1 - (rest.length + 1 + up))) =
          (digitsValue ([d1] ++ rest),
            10 ^ (digitsValue (decimalDigits (down + 1 - (rest.length + 1 + up))) + rest.length)) :=
        readDecimal_exp [d1] rest (decimalDigits (down + 1 - (rest.length + 1 + up))) true
          hd1 hrest
      rw [h, digitsValue_decimalDigits, if_neg (by omega), hval]
      have : down + 1 - (rest.length + 1 + up) + rest.length = down - up := by omega
      rw [this]
    · rw [if_neg h1]
      have h : readDecimal ([d1] ++ (if rest = [] then [] else '.' :: rest) ++
          'e' :: '+' :: decimalDigits (rest.length + 1 + up - 1 - down)) =
          (if rest.length ≤ digitsValue (decimalDigits (rest.length + 1 + up - 1 - down)) then
            (digitsValue ([d1] ++ rest) *
              10 ^ (digitsValue (decimalDigits (rest.length + 1 + up - 1 - down)) - rest.length), 1)
          else (digitsValue ([d1] ++ rest),
            10 ^ (rest.length - digitsValue (decimalDigits (rest.length + 1 + up - 1 - down))))) :=
        readDecimal_exp [d1] rest (decimalDigits (rest.length + 1 + up - 1 - down)) false
          hd1 hrest
      rw [h, digitsValue_decimalDigits, hval]
      by_cases h2 : down ≤ up
      · rw [if_pos h2, if_pos (by omega)]
        have : rest.length + 1 + up - 1 - down - rest.length = up - down := by omega
        rw [this]
      · rw [if_neg h2, if_neg (by omega)]
        have : rest.length - (rest.length + 1 + up - 1 - down) = down - up := by omega
        rw [this]

theorem fmtF_head (ds : List Char) (up down : Nat) (hds : ∀ ch ∈ ds, isDigit ch = true)
    (hne : ds ≠ []) : ∃ ch tl, fmtF ds up down = ch :: tl ∧ isDigit ch = true := by
  cases ds with
  | nil => exact absurd rfl hne
  | cons d1 rest =>
    unfold fmtF
    by_cases h1 : down < (d1 :: rest).length + up
    · rw [if_pos h1]
      have hdp : (d1 :: rest).length + up - down = ((d1 :: rest).length + up - down - 1) + 1 := by
        omega
      simp only
      rw [hdp, List.take_succ_cons]
      split
      · exact ⟨d1, _, rfl, hds d1 (by simp)⟩
      · exact ⟨d1, _, rfl, hds d1 (by simp)⟩
    · rw [if_neg h1]
      exact ⟨'0', _, rfl, by decide⟩

theorem fmtE_head (ds : List Char) (up down : Nat) (hds : ∀ ch ∈ ds, isDigit ch = true)
    (hne : ds ≠ []) : ∃ ch tl, fmtE ds up down = ch :: tl ∧ isDigit ch = true := by
  cases ds with
  | nil => exact absurd rfl hne
  | cons d1 rest =>
    rw [fmtE_cons]
    split
    · exact ⟨d1, _, rfl, hds d1 (by simp)⟩
    · exact ⟨d1, _, rfl, hds d1 (by simp)⟩

/-- Reading a float64 text: the sign, then the decimal. -/
theorem parseFloat_text (neg : Bool) (body : List Char) (m e : Nat)
    (hhead : ∃ ch tl, body = ch :: tl ∧ isDigit ch = true)
    (hround : roundToFloat64 (readDecimal body).1 (readDecimal body).2 = some (m, e)) :
    parseFloat (String.mk ((if neg then ['-'] else []) ++ body)) = some ⟨neg, m, e⟩ := by
  obtain ⟨ch, tl, hb, hch⟩ := hhead
  have hne := (isDigit_ne ch hch).2.2.2.1
  unfold parseFloat
  cases neg with
  | true =>
    simp only [if_true, List.singleton_append, List.head?_cons, List.drop_succ_cons,
      List.drop_zero, hround, decide_True]
  | false =>
    have hh : ¬ (ch = '-') := hne
    simp only [Bool.false_eq_true, if_false, List.nil_append, hb, List.head?_cons,
      Option.some.injEq, hh, decide_False]
    rw [← hb, hround]

/-- The text the encoder writes for a float64 converts back to the float64. -/
theorem parseFloat_formatFloat (f : Float64) (hv : f.valid) :
    parseFloat (formatFloat f) = some f := by
  obtain ⟨neg, m, e⟩ := f
  obtain ⟨hm53, hnorm, he⟩ := hv
  simp only at hm53 hnorm he
  unfold formatFloat
  simp only
  by_cases hm0 : m = 0
  · rw [if_pos hm0]
    subst hm0
    have he0 : e = 0 := by
      by_contra hc
      have := hnorm (by omega)
      simp at this
    subst he0
    cases neg
    · rfl
    · rfl
  · rw [if_neg hm0]
    have hmpos : 0 < m := by omega
    have hr := roundsTo_shortestDecimal m e hmpos
    have hcpos := pos_of_roundsTo m e _ hmpos hr
    have hround := roundToFloat64_of_roundsTo m e _ hmpos hm53 hnorm he hr
    have hds := isDigit_decimalDigits (shortestDecimal m e).c
    have hne := decimalDigits_ne_nil (shortestDecimal m e).c
    have hval := digitsValue_decimalDigits (shortestDecimal m e).c
    have hfrac : (Decimal.mk (digitsValue (decimalDigits (shortestDecimal m e).c))
        (shortestDecimal m e).up (shortestDecimal m e).down).fraction =
        (shortestDecimal m e).fraction := by rw [hval]
    have hboth : ∀ b : Bool, parseFloat (String.mk ((if neg = true then ['-'] else []) ++
        (if b = true then
          fmtE (decimalDigits (shortestDecimal m e).c) (shortestDecimal m e).up
            (shortestDecimal m e).down
        else fmtF (decimalDigits (shortestDecimal m e).c) (shortestDecimal m e).up
            (shortestDecimal m e).down))) = some ⟨neg, m, e⟩ := by
      intro b
      cases b with
      | true =>
        rw [if_pos (rfl : true = true)]
        exact parseFloat_text neg _ m e (fmtE_head _ _ _ hds hne)
          (by rw [readDecimal_fmtE _ _ _ hds hne, hfrac]; exact hround)
      | false =>
        rw [if_neg Bool.false_ne_true]
        exact parseFloat_text neg _ m e (fmtF_head _ _ _ hds hne)
          (by rw [readDecimal_fmtF _ _ _ hds hne, hfrac]; exact hround)
    exact hboth _

theorem readDecimal_den_pos (cs : List Char) : 0 < (readDecimal cs).2 := by
  unfold readDecimal
  simp only
  split_ifs <;> simp

/-- What parseFloat returns stands for a float64. -/
theorem parseFloat_valid (lit : String) (f : Float64) (h : parseFloat lit = some f) :
    f.valid := by
  unfold parseFloat at h
  simp only at h
  split at h
  · cases h
  · rename_i m e hr
    cases h
    exact roundToFloat64_valid _ _ m e (readDecimal_den_pos _) hr

/-- Conversions of sample literals: %e from 1e21 on and below 1e-6, %f between, the shortest
digits, the nearest float64, and a range error. -/
theorem formatFloat_examples :
    (parseFloat "1e21").map formatFloat = some "1e+21" ∧
    (parseFloat "1e20").map formatFloat = some "100000000000000000000" ∧
    (parseFloat "0.000001").map formatFloat = some "0.000001" ∧
    (parseFloat "0.0000001").map formatFloat = some "1e-7" ∧
    (parseFloat "0.1").map formatFloat = some "0.1" ∧
    (parseFloat "-273.15").map formatFloat = some "-273.15" ∧
    (parseFloat "9007199254740993").map formatFloat = some "9007199254740992" ∧
    (parseFloat "5e-324").map formatFloat = some "5e-324" ∧
    parseFloat "1e400" = none := by
  set_option maxRecDepth 1000000 in exact ⟨rfl, rfl, rfl, rfl, rfl, rfl, rfl, rfl, rfl⟩

/-! ### The scanner on the text of the encoder -/

theorem lexRun_cons_quiet (st st' : LexState) (c : Char) (cs : List Char)
    (h : lexStep st c = some (st', [])) : lexRun st (c :: cs) = lexRun st' cs := by
  simp only [lexRun, h]
  cases lexRun st' cs with
  | none => rfl
  | some r => rfl

theorem lexRun_append (st : LexState) (a b : List Char) :
    lexRun st (a ++ b) =
      match lexRun st a with
      | none => none
      | some (st', toks) =>
        match lexRun st' b with
        | none => none
        | some (st'', rest) => some (st'', toks ++ rest) := by
  induction a generalizing st with
  | nil =>
    simp only [List.nil_append, lexRun]
    cases lexRun st b with
    | none => rfl
    | some r => rfl
  | cons c cs ih =>
    simp only [List.cons_append, lexRun]
    cases hs : lexStep st c with
    | none => rfl
    | some r =>
      obtain ⟨st1, t1⟩ := r
      simp only [List.append_eq]
      rw [ih]
      cases h1 : lexRun st1 cs with
      | none => rfl
      | some r1 =>
        obtain ⟨st2, t2⟩ := r1
        simp only
        cases h2 : lexRun st2 b with
        | none => rfl
        | some r2 =>
          obtain ⟨st3, t3⟩ := r2
          simp only [List.append_assoc]

theorem lexFrom_append (st st' : LexState) (a b : List Char) (toks : List JsonToken)
    (h : lexRun st a = some (st', toks)) :
    lexFrom st (a ++ b) =
      match lexFrom st' b with
      | none => none
      | some rest => some (toks ++ rest) := by
  induction a generalizing st toks with
  | nil =>
    simp only [lexRun, Option.some.injEq, Prod.mk.injEq] at h
    obtain ⟨h1, h2⟩ := h
    subst h1 h2
    simp only [List.nil_append]
    cases lexFrom st b with
    | none => rfl
    | some r => rfl
  | cons c cs ih =>
    simp only [lexRun] at h
    simp only [List.cons_append, lexFrom]
    cases hs : lexStep st c with
    | none => rw [hs] at h; cases h
    | some r =>
      obtain ⟨st1, t1⟩ := r
      rw [hs] at h
      simp only [List.append_eq] at h ⊢
      cases h1 : lexRun st1 cs with
      | none => rw [h1] at h; cases h
      | some r1 =>
        obtain ⟨st2, t2⟩ := r1
        rw [h1] at h
        simp only [Option.some.injEq, Prod.mk.injEq] at h
        obtain ⟨h2, h3⟩ := h
        subst h2 h3
        rw [ih st1 t2 h1]
        cases lexFrom st2 b with
        | none => rfl
        | some r => simp only [List.append_assoc]

theorem hexVal_hexDigit (k : Nat) (h : k < 16) : hexVal (hexDigit k) = some k := by
  revert k
  decide

theorem step_backslash (rev : List Char) :
    lexStep (.inString rev none .plain) '\\' = some (.inString rev none .esc, []) := rfl

theorem step_u (rev : List Char) :
    lexStep (.inString rev none .esc) 'u' = some (.inString rev none (.hex 0 4), []) := rfl

theorem step_hex (rev : List Char) (acc left k : Nat) (c : Char) (hc : hexVal c = some k)
    (hl : 1 < left) :
    lexStep (.inString rev none (.hex acc left)) c =
      some (.inString rev none (.hex (acc * 16 + k) (left - 1)), []) := by
  simp only [lexStep, stringStep, hc]
  rw [if_neg (by omega)]

theorem step_hex_last (rev : List Char) (acc k : Nat) (c : Char) (hc : hexVal c = some k)
    (hv : acc * 16 + k < 0xD800) :
    lexStep (.inString rev none (.hex acc 1)) c =
      some (.inString (Char.ofNat (acc * 16 + k) :: rev) none .plain, []) := by
  have h1 : isHighSurrogate (acc * 16 + k) = false := by
    simp only [isHighSurrogate, Bool.and_eq_false_imp, decide_eq_true_eq, decide_eq_false_iff_not]
    omega
  have h2 : isLowSurrogate (acc * 16 + k) = false := by
    simp only [isLowSurrogate, Bool.and_eq_false_imp, decide_eq_true_eq, decide_eq_false_iff_not]
    omega
  simp only [lexStep, stringStep, hc, le_refl, if_true, endUnit, freshUnit, h1, h2,
    Bool.false_eq_true, if_false]

/-- The escape \uXXXX of a code point below the surrogates gives the character back. -/
theorem lexRun_unicode_escape (rev : List Char) (a b c d : Nat) (ha : a < 16) (hb : b < 16)
    (hc : c < 16) (hd : d < 16) (hv : ((a * 16 + b) * 16 + c) * 16 + d < 0xD800) :
    lexRun (.inString rev none .plain)
        ['\\', 'u', hexDigit a, hexDigit b, hexDigit c, hexDigit d] =
      some (.inString (Char.ofNat (((a * 16 + b) * 16 + c) * 16 + d) :: rev) none .plain, []) := by
  rw [lexRun_cons_quiet _ _ _ _ (step_backslash rev), lexRun_cons_quiet _ _ _ _ (step_u rev),
    lexRun_cons_quiet _ _ _ _ (step_hex rev 0 4 a _ (hexVal_hexDigit a ha) (by norm_num)),
    lexRun_cons_quiet _ _ _ _ (step_hex rev _ 3 b _ (hexVal_hexDigit b hb) (by norm_num)),
    lexRun_cons_quiet _ _ _ _ (step_hex rev _ 2 c _ (hexVal_hexDigit c hc) (by norm_num)),
    lexRun_cons_quiet _ _ _ _ (step_hex_last rev _ d _ (hexVal_hexDigit d hd)
      (by simpa using hv))]
  simp [lexRun]

/-- The scanner reads what the encoder writes for a character as that character. -/
theorem lexRun_encodeChar (rev : List Char) (c : Char) :
    lexRun (.inString rev none .plain) (encodeChar c) =
      some (.inString (c :: rev) none .plain, []) := by
  have hof : Char.ofNat c.toNat = c := Char.ofNat_toNat c
  unfold encodeChar
  split
  · rename_i h; subst h; rfl
  split
  · rename_i h; subst h; rfl
  split
  · rename_i h; rw [← hof, h]; rfl
  split
  · rename_i h; rw [← hof, h]; rfl
  split
  · rename_i h; subst h; rfl
  split
  · rename_i h; subst h; rfl
  split
  · rename_i h; subst h; rfl
  split
  · rename_i h
    have hlt : c.toNat < 128 := by
      rcases h with h | h | h | h
      · omega
      · rw [h]; decide
      · rw [h]; decide
      · rw [h]; decide
    have := lexRun_unicode_escape rev 0 0 (c.toNat / 16) (c.toNat % 16) (by norm_num)
      (by norm_num) (by omega) (by omega) (by omega)
    have h0 : hexDigit 0 = '0' := rfl
    rw [h0] at this
    rw [this]
    have hv : ((0 * 16 + 0) * 16 + c.toNat / 16) * 16 + c.toNat % 16 = c.toNat := by omega
    rw [hv, hof]
  split
  · rename_i h
    have := lexRun_unicode_escape rev 2 0 2 (c.toNat % 16) (by norm_num)
      (by norm_num) (by norm_num) (by omega) (by omega)
    have h0 : hexDigit 0 = '0' := rfl
    have h2 : hexDigit 2 = '2' := rfl
    rw [h0, h2] at this
    rw [this]
    have hv : ((2 * 16 + 0) * 16 + 2) * 16 + c.toNat % 16 = c.toNat := by omega
    rw [hv, hof]
  · rename_i h1 h2 _ _ _ _ _ h8 _
    have hlt : ¬ c.toNat < 0x20 := fun hc => h8 (Or.inl hc)
    have hstep : lexStep (.inString rev none .plain) c =
        some (.inString (c :: rev) none .plain, []) := by
      simp only [lexStep, stringStep, if_neg h1, if_neg h2, if_neg hlt, flushHi]
    rw [lexRun_cons_quiet _ _ _ _ hstep]
    rfl

theorem lexRun_encoded (l rev : List Char) :
    lexRun (.inString rev none .plain) (l.flatMap encodeChar) =
      some (.inString (l.reverse ++ rev) none .plain, []) := by
  induction l generalizing rev with
  | nil => rfl
  | cons c cs ih =>
    rw [List.flatMap_cons, lexRun_append, lexRun_encodeChar]
    simp only
    rw [ih]
    simp

/-- The scanner reads the text of encodeString as one string token, the string itself. -/
theorem lexRun_encodeString (s : String) :
    lexRun .idle (encodeString s).data = some (.idle, [.string s]) := by
  unfold encodeString
  simp only
  have h1 : lexStep .idle '"' = some (.inString [] none .plain, []) := rfl
  rw [lexRun_cons_quiet _ _ _ _ h1, lexRun_append, lexRun_encoded]
  simp only [List.append_nil]
  have h2 : lexRun (.inString s.data.reverse none .plain) ['"'] =
      some (.idle, [.string (String.mk s.data.reverse.reverse)]) := rfl
  rw [h2]
  simp

theorem digit_cases (c : Char) (h : isDigit c = true) : ∃ k, k < 10 ∧ c = Char.ofNat (48 + k) := by
  simp only [isDigit, Bool.and_eq_true, decide_eq_true_eq] at h
  have h0 : '0'.toNat = 48 := rfl
  have h9 : '9'.toNat = 57 := rfl
  rw [h0, h9] at h
  refine ⟨c.toNat - 48, by omega, ?_⟩
  have : 48 + (c.toNat - 48) = c.toNat := by omega
  rw [this, Char.ofNat_toNat]

theorem idleStep_digit (c : Char) (h : isDigit c = true) :
    idleStep c = some (.inNumber (if c = '0' then .zero else .int) [c], []) := by
  obtain ⟨k, hk, rfl⟩ := digit_cases c h
  revert k
  decide

theorem numberStep_digit (c : Char) (h : isDigit c = true) :
    numberStep .neg c = .ok (some (if c = '0' then .zero else .int)) ∧
    numberStep .int c = .ok (some .int) ∧ numberStep .dot c = .ok (some .frac) ∧
    numberStep .frac c = .ok (some .frac) ∧ numberStep .e c = .ok (some .exp) ∧
    numberStep .eSign c = .ok (some .exp) ∧ numberStep .exp c = .ok (some .exp) := by
  obtain ⟨k, hk, rfl⟩ := digit_cases c h
  interval_cases k <;> exact ⟨rfl, rfl, rfl, rfl, rfl, rfl, rfl⟩

theorem lexStep_number (st st' : NumState) (rev : List Char) (c : Char)
    (h : numberStep st c = .ok (some st')) :
    lexStep (.inNumber st rev) c = some (.inNumber st' (c :: rev), []) := by
  simp only [lexStep, h]

theorem lexRun_digits (st : NumState) (hst : st = .int ∨ st = .frac ∨ st = .exp)
    (l rev : List Char) (hl : ∀ ch ∈ l, isDigit ch = true) :
    lexRun (.inNumber st rev) l = some (.inNumber st (l.reverse ++ rev), []) := by
  induction l generalizing rev with
  | nil => rfl
  | cons c cs ih =>
    have hc := numberStep_digit c (hl c (by simp))
    have hstep : numberStep st c = .ok (some st) := by
      rcases hst with h | h | h
      · rw [h]; exact hc.2.1
      · rw [h]; exact hc.2.2.2.1
      · rw [h]; exact hc.2.2.2.2.2.2
    rw [lexRun_cons_quiet _ _ _ _ (lexStep_number st st rev c hstep),
      ih _ (fun ch hch => hl ch (by simp [hch]))]
    simp

/-- The integer part of a number: 0, or digits that do not start with 0. -/
theorem lexRun_intPart (neg : Bool) (ip : List Char)
    (hip : ip = ['0'] ∨ ∃ d ds, ip = d :: ds ∧ d ≠ '0' ∧ ∀ ch ∈ d :: ds, isDigit ch = true) :
    ∃ s, (s = NumState.zero ∨ s = NumState.int) ∧
      lexRun .idle ((if neg then ['-'] else []) ++ ip) =
        some (.inNumber s ((if neg then ['-'] else []) ++ ip).reverse, []) := by
  have hfirst : ∀ d, isDigit d = true →
      lexRun .idle ((if neg then ['-'] else []) ++ [d]) =
        some (.inNumber (if d = '0' then .zero else .int)
          (d :: (if neg then ['-'] else []).reverse), []) := by
    intro d hd
    cases neg with
    | false =>
      simp only [Bool.false_eq_true, if_false, List.nil_append, List.reverse_nil]
      simp only [lexRun, lexStep, idleStep_digit d hd, List.append_nil]
    | true =>
      simp only [if_true, List.singleton_append, List.reverse_cons, List.reverse_nil,
        List.nil_append]
      have h1 : lexStep .idle '-' = some (.inNumber .neg ['-'], []) := rfl
      rw [lexRun_cons_quiet _ _ _ _ h1,
        lexRun_cons_quiet _ _ _ _ (lexStep_number _ _ _ _ (numberStep_digit d hd).1)]
      rfl
  rcases hip with h | ⟨d, ds, h, hd0, hds⟩
  · subst h
    refine ⟨.zero, Or.inl rfl, ?_⟩
    rw [hfirst '0' (by decide)]
    simp
  · subst h
    refine ⟨.int, Or.inr rfl, ?_⟩
    have e : (if neg then ['-'] else []) ++ d :: ds = ((if neg then ['-'] else []) ++ [d]) ++ ds := by
      simp
    rw [e, lexRun_append, hfirst d (hds d (by simp))]
    simp only [if_neg hd0]
    rw [lexRun_digits .int (Or.inl rfl) ds _ (fun ch hch => hds ch (by simp [hch]))]
    simp

/-- The fraction part of a number: nothing, or a point and digits. -/
theorem lexRun_fracPart (s : NumState) (hs : s = .zero ∨ s = .int) (rev fr : List Char)
    (hfr : ∀ ch ∈ fr, isDigit ch = true) :
    ∃ s2, (s2 = NumState.zero ∨ s2 = NumState.int ∨ s2 = NumState.frac) ∧
      lexRun (.inNumber s rev) (if fr = [] then [] else '.' :: fr) =
        some (.inNumber s2 ((if fr = [] then [] else '.' :: fr).reverse ++ rev), []) := by
  cases fr with
  | nil =>
    refine ⟨s, ?_, ?_⟩
    · rcases hs with h | h
      · exact Or.inl h
      · exact Or.inr (Or.inl h)
    · simp [lexRun]
  | cons f1 frest =>
    refine ⟨.frac, Or.inr (Or.inr rfl), ?_⟩
    have hdot : numberStep s '.' = .ok (some .dot) := by
      rcases hs with h | h <;> subst h <;> rfl
    simp only [if_neg (List.cons_ne_nil _ _)]
    rw [lexRun_cons_quiet _ _ _ _ (lexStep_number _ _ _ _ hdot),
      lexRun_cons_quiet _ _ _ _ (lexStep_number _ _ _ _
        (numberStep_digit f1 (hfr f1 (by simp))).2.2.1),
      lexRun_digits .frac (Or.inr (Or.inl rfl)) frest _ (fun ch hch => hfr ch (by simp [hch]))]
    simp

/-- The exponent part of a number: e, a sign and digits. -/
theorem lexRun_expPart (s : NumState) (hs : s = .zero ∨ s = .int ∨ s = .frac)
    (rev ed : List Char) (sign : Char) (hsign : sign = '-' ∨ sign = '+')
    (hed : ∀ ch ∈ ed, isDigit ch = true) (hne : ed ≠ []) :
    lexRun (.inNumber s rev) ('e' :: sign :: ed) =
      some (.inNumber .exp (('e' :: sign :: ed).reverse ++ rev), []) := by
  cases ed with
  | nil => exact absurd rfl hne
  | cons e1 erest =>
    have he : numberStep s 'e' = .ok (some .e) := by
      rcases hs with h | h | h <;> subst h <;> rfl
    have hsg : numberStep .e sign = .ok (some .eSign) := by
      rcases hsign with h | h <;> subst h <;> rfl
    rw [lexRun_cons_quiet _ _ _ _ (lexStep_number _ _ _ _ he),
      lexRun_cons_quiet _ _ _ _ (lexStep_number _ _ _ _ hsg),
      lexRun_cons_quiet _ _ _ _ (lexStep_number _ _ _ _
        (numberStep_digit e1 (hed e1 (by simp))).2.2.2.2.2.1),
      lexRun_digits .exp (Or.inr (Or.inr rfl)) erest _ (fun ch hch => hed ch (by simp [hch]))]
    simp

theorem numberDone_of (s : NumState) (h : s = .zero ∨ s = .int ∨ s = .frac ∨ s = .exp) :
    numberDone s = true := by
  rcases h with h | h | h | h <;> subst h <;> rfl

/-- A sign, an integer part and a fraction part are scanned as one number. -/
theorem lexRun_plain (neg : Bool) (ip fr : List Char)
    (hip : ip = ['0'] ∨ ∃ d ds, ip = d :: ds ∧ d ≠ '0' ∧ ∀ ch ∈ d :: ds, isDigit ch = true)
    (hfr : ∀ ch ∈ fr, isDigit ch = true) :
    ∃ s, (s = NumState.zero ∨ s = NumState.int ∨ s = NumState.frac) ∧
      lexRun .idle ((if neg then ['-'] else []) ++ (ip ++ (if fr = [] then [] else '.' :: fr))) =
        some (.inNumber s
          ((if neg then ['-'] else []) ++ (ip ++ (if fr = [] then [] else '.' :: fr))).reverse,
          []) := by
  obtain ⟨s1, hs1, h1⟩ := lexRun_intPart neg ip hip
  obtain ⟨s2, hs2, h2⟩ := lexRun_fracPart s1 hs1
    ((if neg then ['-'] else []) ++ ip).reverse fr hfr
  refine ⟨s2, hs2, ?_⟩
  rw [← List.append_assoc, lexRun_append, h1]
  simp only
  rw [h2]
  simp

theorem digitChar_ne_zero (k : Nat) (hk : k < 10) (hpos : 0 < k) : digitChar k ≠ '0' := by
  revert k
  decide

theorem decimalDigitsAux_head : ∀ (fuel c : Nat), c ≤ fuel → 0 < c →
    ∃ d tl, decimalDigitsAux fuel c = d :: tl ∧ d ≠ '0' := by
  intro fuel
  induction fuel with
  | zero => intro c h1 h2; omega
  | succ fuel ih =>
    intro c hc hpos
    simp only [decimalDigitsAux]
    by_cases h : c < 10
    · rw [if_pos h]
      exact ⟨digitChar c, [], rfl, digitChar_ne_zero c h hpos⟩
    · rw [if_neg h]
      obtain ⟨d, tl, h1, h2⟩ := ih (c / 10) (by omega) (by omega)
      rw [h1]
      exact ⟨d, tl ++ [digitChar c], rfl, h2⟩

theorem decimalDigits_head (c : Nat) (hpos : 0 < c) :
    ∃ d tl, decimalDigits c = d :: tl ∧ d ≠ '0' :=
  decimalDigitsAux_head c c (le_refl _) hpos

/-- The format %f is scanned as one number. -/
theorem lexRun_fmtF (neg : Bool) (d1 : Char) (rest : List Char) (up down : Nat)
    (hds : ∀ ch ∈ d1 :: rest, isDigit ch = true) (hd1 : d1 ≠ '0') :
    ∃ s, numberDone s = true ∧
      lexRun .idle ((if neg then ['-'] else []) ++ fmtF (d1 :: rest) up down) =
        some (.inNumber s ((if neg then ['-'] else []) ++ fmtF (d1 :: rest) up down).reverse,
          []) := by
  have hshape : ∃ ip fr, fmtF (d1 :: rest) up down = ip ++ (if fr = [] then [] else '.' :: fr) ∧
      (ip = ['0'] ∨ ∃ d ds, ip = d :: ds ∧ d ≠ '0' ∧ ∀ ch ∈ d :: ds, isDigit ch = true) ∧
      (∀ ch ∈ fr, isDigit ch = true) := by
    unfold fmtF
    by_cases h1 : down < (d1 :: rest).length + up
    · rw [if_pos h1]
      simp only
      refine ⟨(d1 :: rest).take ((d1 :: rest).length + up - down) ++
        List.replicate ((d1 :: rest).length + up - down - (d1 :: rest).length) '0',
        (d1 :: rest).drop ((d1 :: rest).length + up - down), ?_, ?_, ?_⟩
      · split
        · simp
        · rfl
      · right
        have hdp : (d1 :: rest).length + up - down =
            ((d1 :: rest).length + up - down - 1) + 1 := by omega
        refine ⟨d1, rest.take ((d1 :: rest).length + up - down - 1) ++
          List.replicate ((d1 :: rest).length + up - down - (d1 :: rest).length) '0', ?_, hd1, ?_⟩
        · have ht : ∀ n, 0 < n → (d1 :: rest).take n = d1 :: rest.take (n - 1) := by
            intro n hn
            cases n with
            | zero => omega
            | succ k => simp
          rw [ht _ (by omega)]
          rfl
        · intro ch hch
          simp only [List.mem_cons, List.mem_append, List.mem_replicate] at hch
          rcases hch with hch | hch | ⟨_, hch⟩
          · rw [hch]; exact hds d1 (by simp)
          · exact hds ch (List.mem_cons_of_mem _ (List.mem_of_mem_take hch))
          · rw [hch]; decide
      · intro ch hch
        exact hds ch (List.mem_of_mem_drop hch)
    · rw [if_neg h1]
      refine ⟨['0'], List.replicate (down - ((d1 :: rest).length + up)) '0' ++ d1 :: rest,
        ?_, Or.inl rfl, ?_⟩
      · rw [if_neg (by simp)]
        rfl
      · intro ch hch
        simp only [List.mem_append, List.mem_replicate] at hch
        rcases hch with ⟨_, hch⟩ | hch
        · rw [hch]; decide
        · exact hds ch hch
  obtain ⟨ip, fr, htext, hip, hfr⟩ := hshape
  obtain ⟨s, hs, hrun⟩ := lexRun_plain neg ip fr hip hfr
  refine ⟨s, numberDone_of s ?_, ?_⟩
  · rcases hs with h | h | h
    · exact Or.inl h
    · exact Or.inr (Or.inl h)
    · exact Or.inr (Or.inr (Or.inl h))
  · rw [htext]; exact hrun

/-- The format %e is scanned as one number. -/
theorem lexRun_fmtE (neg : Bool) (d1 : Char) (rest : List Char) (up down : Nat)
    (hds : ∀ ch ∈ d1 :: rest, isDigit ch = true) (hd1 : d1 ≠ '0') :
    ∃ s, numberDone s = true ∧
      lexRun .idle ((if neg then ['-'] else []) ++ fmtE (d1 :: rest) up down) =
        some (.inNumber s ((if neg then ['-'] else []) ++ fmtE (d1 :: rest) up down).reverse,
          []) := by
  have hshape : ∃ sign ed, (sign = '-' ∨ sign = '+') ∧ (∀ ch ∈ ed, isDigit ch = true) ∧ ed ≠ [] ∧
      fmtE (d1 :: rest) up down =
        ([d1] ++ (if rest = [] then [] else '.' :: rest)) ++ 'e' :: sign :: ed := by
    rw [fmtE_cons]
    split
    · exact ⟨'-', _, Or.inl rfl, isDigit_decimalDigits _, decimalDigits_ne_nil _, rfl⟩
    · exact ⟨'+', _, Or.inr rfl, isDigit_decimalDigits _, decimalDigits_ne_nil _, rfl⟩
  obtain ⟨sign, ed, hsign, hed, hne, htext⟩ := hshape
  obtain ⟨s, hs, hrun⟩ := lexRun_plain neg [d1] rest
    (Or.inr ⟨d1, [], rfl, hd1, fun ch hch => hds ch (by
      simp only [List.mem_singleton] at hch
      simp [hch])⟩)
    (fun ch hch => hds ch (by simp [hch]))
  refine ⟨.exp, rfl, ?_⟩
  rw [htext, ← List.append_assoc, lexRun_append, hrun]
  simp only
  rw [lexRun_expPart s hs _ ed sign hsign hed hne]
  simp

/-- The text the encoder writes for a float64 is scanned as one number. -/
theorem lexRun_formatFloat (f : Float64) (hv : f.valid) :
    ∃ s, numberDone s = true ∧
      lexRun .idle (formatFloat f).data =
        some (.inNumber s (formatFloat f).data.reverse, []) := by
  obtain ⟨neg, m, e⟩ := f
  unfold formatFloat
  simp only
  by_cases hm0 : m = 0
  · rw [if_pos hm0]
    cases neg
    · exact ⟨.zero, rfl, rfl⟩
    · exact ⟨.zero, rfl, rfl⟩
  · rw [if_neg hm0]
    have hmpos : 0 < m := by omega
    have hr := roundsTo_shortestDecimal m e hmpos
    have hcpos := pos_of_roundsTo m e _ hmpos hr
    obtain ⟨d1, rest, hdig, hd1⟩ := decimalDigits_head _ hcpos
    have hds := isDigit_decimalDigits (shortestDecimal m e).c
    rw [hdig] at hds ⊢
    have hboth : ∀ b : Bool, ∃ s, numberDone s = true ∧
        lexRun .idle ((if neg = true then ['-'] else []) ++
          (if b = true then fmtE (d1 :: rest) (shortestDecimal m e).up (shortestDecimal m e).down
          else fmtF (d1 :: rest) (shortestDecimal m e).up (shortestDecimal m e).down)) =
        some (.inNumber s ((if neg = true then ['-'] else []) ++
          (if b = true then fmtE (d1 :: rest) (shortestDecimal m e).up (shortestDecimal m e).down
          else fmtF (d1 :: rest) (shortestDecimal m e).up (shortestDecimal m e).down)).reverse,
          []) := by
      intro b
      cases b with
      | true =>
        rw [if_pos (rfl : true = true)]
        exact lexRun_fmtE neg d1 rest _ _ hds hd1
      | false =>
        rw [if_neg Bool.false_ne_true]
        exact lexRun_fmtF neg d1 rest _ _ hds hd1
    exact hboth _

theorem lexFrom_of_lexRun (st st' : LexState) (a : List Char) (toks : List JsonToken)
    (h : lexRun st a = some (st', toks)) :
    lexFrom st a =
      match lexFrom st' [] with
      | none => none
      | some rest => some (toks ++ rest) := by
  have := lexFrom_append st st' a [] toks h
  rw [List.append_nil] at this
  exact this

theorem lexRun_after_number (s : NumState) (hs : numberDone s = true) (rev : List Char) :
    lexRun (.inNumber s rev) ",\"condition\":".data =
      some (.idle, [.number (String.mk rev.reverse), .valueSep, .string "condition",
        .nameSep]) := by
  cases s with
  | neg => cases hs
  | zero => rfl
  | int => rfl
  | dot => cases hs
  | frac => rfl
  | e => cases hs
  | eSign => cases hs
  | exp => rfl

/-- The body the encoder writes is the JSON object of the temperature and the condition:
the scanner and parser of encoding/json read it as the object with the member temperature,
a number whose text converts back to the float64, and the member condition, the string. -/
theorem parseJSON_encodeResponse (t : Float64) (d : String) (hv : t.valid) :
    parseJSON (encodeResponse ⟨t, d⟩) =
      some (.object [("temperature", .number (formatFloat t)), ("condition", .string d)]) ∧
    parseFloat (formatFloat t) = some t := by
  refine ⟨?_, parseFloat_formatFloat t hv⟩
  obtain ⟨s, hs, hnum⟩ := lexRun_formatFloat t hv
  have hdata : (encodeResponse ⟨t, d⟩).data =
      "\x7b\"temperature\":".data ++ ((formatFloat t).data ++ (",\"condition\":".data ++
        ((encodeString d).data ++ "\x7d\n".data))) := by
    simp [encodeResponse, String.data_append]
  have h1 : lexRun .idle "\x7b\"temperature\":".data =
      some (.idle, [.beginObject, .string "temperature", .nameSep]) := rfl
  have h5 : lexRun .idle "\x7d\n".data = some (.idle, [.endObject]) := rfl
  have hrun : lexRun .idle (encodeResponse ⟨t, d⟩).data =
      some (.idle, [.beginObject, .string "temperature", .nameSep,
        .number (formatFloat t), .valueSep, .string "condition", .nameSep, .string d,
        .endObject]) := by
    rw [hdata, lexRun_append, h1]
    simp only
    rw [lexRun_append, hnum]
    simp only
    rw [lexRun_append, lexRun_after_number s hs]
    simp only
    rw [lexRun_append, lexRun_encodeString]
    simp only
    rw [h5]
    simp
  unfold parseJSON
  rw [lexFrom_of_lexRun _ _ _ _ hrun]
  rfl

/-! ### The temperature json.Unmarshal gives -/

theorem decodeMembers_invariant {α : Type} (P : α → Prop)
    (step : α → String × Json → Except String α)
    (hstep : ∀ a m a', P a → step a m = .ok a' → P a') :
    ∀ (ms : List (String × Json)) (a a' : α), P a → decodeMembers step ms a = .ok a' → P a' := by
  intro ms
  induction ms with
  | nil =>
    intro a a' ha h
    simp only [decodeMembers] at h
    cases h
    exact ha
  | cons m ms ih =>
    intro a a' ha h
    simp only [decodeMembers] at h
    cases hs : step a m with
    | error e => rw [hs] at h; cases h
    | ok a1 =>
      rw [hs] at h
      exact ih a1 a' (hstep a m a1 ha hs) h

theorem Float64.valid_zero : Float64.zero.valid := by
  refine ⟨by norm_num [Float64.zero], fun h => ?_, by norm_num [Float64.zero]⟩
  simp [Float64.zero] at h

theorem decodeTemp_valid (v : Json) (old t : Float64) (hold : old.valid)
    (h : decodeTemp v old = .ok t) : t.valid := by
  cases v with
  | null =>
    simp only [decodeTemp] at h
    cases h
    exact hold
  | number lit =>
    simp only [decodeTemp] at h
    cases hp : parseFloat lit with
    | none => rw [hp] at h; cases h
    | some f =>
      rw [hp] at h
      cases h
      exact parseFloat_valid lit _ hp
  | bool b => simp [decodeTemp] at h
  | string s => simp [decodeTemp] at h
  | array vs => simp [decodeTemp] at h
  | object ms => simp [decodeTemp] at h

theorem decodeMain_valid (v : Json) (old x : MainData) (hold : old.Temp.valid)
    (h : decodeMain v old = .ok x) : x.Temp.valid := by
  cases v with
  | null =>
    simp only [decodeMain] at h
    cases h
    exact hold
  | object ms =>
    simp only [decodeMain] at h
    refine decodeMembers_invariant (fun a : MainData => a.Temp.valid) decodeMainMember ?_
      ms old x hold h
    intro a m a' ha hs
    unfold decodeMainMember at hs
    split at hs
    · cases hd : decodeTemp m.2 a.Temp with
      | error e => rw [hd] at hs; cases hs
      | ok t =>
        rw [hd] at hs
        cases hs
        exact decodeTemp_valid _ _ _ ha hd
    · cases hs
      exact ha
  | bool b => simp [decodeMain] at h
  | number lit => simp [decodeMain] at h
  | string s => simp [decodeMain] at h
  | array vs => simp [decodeMain] at h

/-- The temperature json.Unmarshal leaves in weatherData stands for a float64. -/
theorem unmarshal_temp_valid (body : String) (wd : WeatherData) (h : unmarshal body = .ok wd) :
    wd.Main.Temp.valid := by
  unfold unmarshal at h
  cases hp : parseJSON body with
  | none => rw [hp] at h; cases h
  | some doc =>
    rw [hp] at h
    simp only at h
    cases hd : decodeWeatherData doc ⟨WeatherData.zero, []⟩ with
    | error e => rw [hd] at h; cases h
    | ok dec =>
      rw [hd] at h
      cases h
      cases doc with
      | null =>
        simp only [decodeWeatherData] at hd
        cases hd
        exact Float64.valid_zero
      | object ms =>
        simp only [decodeWeatherData] at hd
        refine decodeMembers_invariant (fun a : Decoding => a.data.Main.Temp.valid)
          decodeDataMember ?_ ms _ dec Float64.valid_zero hd
        intro a m a' ha hs
        unfold decodeDataMember at hs
        split at hs
        · cases hm : decodeMain m.2 a.data.Main with
          | error e => rw [hm] at hs; cases hs
          | ok x =>
            rw [hm] at hs
            cases hs
            exact decodeMain_valid _ _ _ ha hm
        · split at hs
          · cases hw : decodeWeather m.2 (a.data.Weather ++ a.spare) with
            | error e => rw [hw] at hs; cases hs
            | ok x =>
              rw [hw] at hs
              cases hs
              exact ha
          · cases hs
            exact ha
      | bool b => simp [decodeWeatherData] at hd
      | number lit => simp [decodeWeatherData] at hd
      | string s => simp [decodeWeatherData] at hd
      | array vs => simp [decodeWeatherData] at hd

/-! ## Properties of the handler -/

theorem Values.Get_eq_empty_of_absent (v : Values) (key : String)
    (h : ∀ x, (key, x) ∉ v) : v.Get key = "" := by
  unfold Values.Get
  cases hf : v.find? (fun p => p.1 = key) with
  | none => rfl
  | some p =>
    exfalso
    have hmem := List.mem_of_find?_eq_some hf
    have hk : p.1 = key := by simpa using List.find?_some hf
    exact h p.2 (by rw [← hk]; exact hmem)

/-- C1: a request whose city parameter is absent, or whose first city value is empty, is
answered 400 with the message "City parameter is required"; the handler returns before the
configuration is loaded and before any upstream call (it makes no call at all and leaves the
environment as it was), whatever the configuration and the upstream are. -/
theorem handleWeather_city_required (r : Request) (w : World)
    (h : (∀ x, ("city", x) ∉ r.query) ∨ r.query.Get "city" = "") :
    handleWeather r w =
      ⟨.response ⟨400, [("Content-Type", "text/plain; charset=utf-8"),
          ("X-Content-Type-Options", "nosniff")], "City parameter is required\n"⟩,
        [], w.env⟩ := by
  have hc : r.query.Get "city" = "" := by
    rcases h with h | h
    · exact Values.Get_eq_empty_of_absent _ _ h
    · exact h
  unfold handleWeather
  simp only [hc, if_true]
  rfl

theorem handleWeather_city_required_witness :
    handleWeather ⟨[("units", "metric")]⟩ (worldWithBody clearSkyBody) =
      ⟨.response ⟨400, [("Content-Type", "text/plain; charset=utf-8"),
          ("X-Content-Type-Options", "nosniff")], "City parameter is required\n"⟩,
        [], emptyEnviron⟩ ∧
    handleWeather ⟨[("city", ""), ("city", "Paris")]⟩ (worldWith (.error "unreachable")) =
      ⟨.response ⟨400, [("Content-Type", "text/plain; charset=utf-8"),
          ("X-Content-Type-Options", "nosniff")], "City parameter is required\n"⟩,
        [], emptyEnviron⟩ :=
  ⟨handleWeather_city_required _ _ (Or.inl (by intro x hx; simp at hx)),
   handleWeather_city_required _ _ (Or.inr (by decide))⟩

/-- C5: with a city and a configuration that loads, a failed upstream GET, a failed read of
the body and a body that does not decode are each answered 500 with a fixed plain-text
message, "Error fetching weather data", "Error reading response body" and
"Error parsing JSON": the response is the same whatever the error of that step says. -/
theorem handleWeather_upstream_failure (r : Request) (w : World)
    (file : String → Option String)
    (hcity : r.query.Get "city" ≠ "") (hcfg : w.dotenv = .ok file) :
    (∀ e, w.upstream (weatherURL (r.query.Get "city")
          (Getenv (godotenvLoad w.env file) "openWeatherKey")) = .error e →
      (handleWeather r w).outcome =
        .response ⟨500, [("Content-Type", "text/plain; charset=utf-8"),
          ("X-Content-Type-Options", "nosniff")], "Error fetching weather data\n"⟩) ∧
    (∀ resp e, w.upstream (weatherURL (r.query.Get "city")
          (Getenv (godotenvLoad w.env file) "openWeatherKey")) = .ok resp →
      resp.body = .error e →
      (handleWeather r w).outcome =
        .response ⟨500, [("Content-Type", "text/plain; charset=utf-8"),
          ("X-Content-Type-Options", "nosniff")], "Error reading response body\n"⟩) ∧
    (∀ resp body e, w.upstream (weatherURL (r.query.Get "city")
          (Getenv (godotenvLoad w.env file) "openWeatherKey")) = .ok resp →
      resp.body = .ok body → unmarshal body = .error e →
      (handleWeather r w).outcome =
        .response ⟨500, [("Content-Type", "text/plain; charset=utf-8"),
          ("X-Content-Type-Options", "nosniff")], "Error parsing JSON\n"⟩) := by
  refine ⟨?_, ?_, ?_⟩
  · intro e hup
    simp only [handleWeather, if_neg hcity, hcfg, hup]
    rfl
  · intro resp e hup hbody
    simp only [handleWeather, if_neg hcity, hcfg, hup, hbody]
    rfl
  · intro resp body e hup hbody hjson
    simp only [handleWeather, if_neg hcity, hcfg, hup, hbody, hjson]
    rfl

theorem handleWeather_upstream_failure_witness :
    (handleWeather londonRequest (worldWith (.error "dial tcp: connection refused"))).outcome =
        .response ⟨500, [("Content-Type", "text/plain; charset=utf-8"),
          ("X-Content-Type-Options", "nosniff")], "Error fetching weather data\n"⟩ ∧
    (handleWeather londonRequest (worldWith (.ok ⟨200, .error "unexpected EOF"⟩))).outcome =
        .response ⟨500, [("Content-Type", "text/plain; charset=utf-8"),
          ("X-Content-Type-Options", "nosniff")], "Error reading response body\n"⟩ ∧
    (handleWeather londonRequest (worldWithBody "<html>Bad Gateway</html>")).outcome =
        .response ⟨500, [("Content-Type", "text/plain; charset=utf-8"),
          ("X-Content-Type-Options", "nosniff")], "Error parsing JSON\n"⟩ :=
  ⟨(handleWeather_upstream_failure londonRequest _ sampleDotenv (by decide) rfl).1 _ rfl,
   (handleWeather_upstream_failure londonRequest _ sampleDotenv (by decide) rfl).2.1 _ _ rfl rfl,
   (handleWeather_upstream_failure londonRequest _ sampleDotenv (by decide) rfl).2.2
     _ _ "invalid character or unexpected end of JSON input" rfl rfl rfl⟩

/-- C6: with a city, a configuration that cannot be loaded ends the process (log.Fatalf)
instead of a response, after the attempt to load and before any upstream call; and a call
of the handler ends this way only for a request with a city (and a configuration that
fails). -/
theorem handleWeather_config_fatal (r : Request) (w : World) (err : String)
    (hcity : r.query.Get "city" ≠ "") (hcfg : w.dotenv = .error err) :
    (handleWeather r w).outcome = .fatal ("Error loading .env file: " ++ err) ∧
    (handleWeather r w).effects = [.loadDotenv ".env"] ∧
    (∀ url, Effect.httpGet url ∉ (handleWeather r w).effects) ∧
    (∀ (r' : Request) (w' : World) (msg : String),
      (handleWeather r' w').outcome = .fatal msg →
        r'.query.Get "city" ≠ "" ∧ ∃ e, w'.dotenv = .error e) := by
  have hres : handleWeather r w =
      ⟨.fatal ("Error loading .env file: " ++ err), [.loadDotenv ".env"], w.env⟩ := by
    simp only [handleWeather, if_neg hcity, hcfg]
  refine ⟨by rw [hres], by rw [hres], ?_, ?_⟩
  · intro url
    rw [hres]
    simp
  · intro r' w' msg hout
    by_cases hc : r'.query.Get "city" = ""
    · simp [handleWeather, hc] at hout
    · refine ⟨hc, ?_⟩
      cases hd : w'.dotenv with
      | error e => exact ⟨e, rfl⟩
      | ok file =>
        exfalso
        simp only [handleWeather, if_neg hc, hd] at hout
        split at hout
        · simp at hout
        · split at hout
          · simp at hout
          · split at hout
            · simp at hout
            · split at hout <;> simp at hout

theorem handleWeather_config_fatal_witness :
    (handleWeather londonRequest
        ⟨emptyEnviron, .error "open .env: no such file or directory", fun _ => .error ""⟩).outcome
      = .fatal "Error loading .env file: open .env: no such file or directory" ∧
    (handleWeather londonRequest
        ⟨emptyEnviron, .error "open .env: no such file or directory", fun _ => .error ""⟩).effects
      = [.loadDotenv ".env"] :=
  ⟨(handleWeather_config_fatal londonRequest _ _ (by decide) rfl).1,
   (handleWeather_config_fatal londonRequest _ _ (by decide) rfl).2.1⟩

/-- C7: with a city c and a configuration that loads, the handler issues exactly one upstream
call, after loading the configuration, and the URL it requests is
"http://api.openweathermap.org/data/2.5/weather?q=" ++ c ++ "&appid=" ++ k ++ "&units=metric",
where k is the value os.Getenv gives for openWeatherKey after godotenv.Load. -/
theorem handleWeather_requests_url (r : Request) (w : World) (file : String → Option String)
    (c k : String) (hc : r.query.Get "city" = c) (hcity : c ≠ "") (hcfg : w.dotenv = .ok file)
    (hk : Getenv (godotenvLoad w.env file) "openWeatherKey" = k) :
    (handleWeather r w).effects =
      [.loadDotenv ".env",
       .httpGet ("http://api.openweathermap.org/data/2.5/weather?q=" ++ c ++ "&appid=" ++ k ++
         "&units=metric")] := by
  subst hc hk
  simp only [handleWeather, if_neg hcity, hcfg]
  split
  · rfl
  · split
    · rfl
    · split
      · rfl
      · split <;> rfl

theorem handleWeather_requests_url_witness :
    (handleWeather londonRequest (worldWithBody clearSkyBody)).effects =
      [.loadDotenv ".env",
       .httpGet "http://api.openweathermap.org/data/2.5/weather?q=London&appid=abc123&units=metric"] :=
  handleWeather_requests_url londonRequest (worldWithBody clearSkyBody) sampleDotenv
    "London" "abc123" (by decide) (by decide) rfl (by decide)

/-- C2: with a city and a configuration that loads, when the upstream body decodes to a
WeatherData whose weather sequence is first :: rest, the response has status 200, the header
Content-Type: application/json and as body the JSON object with temperature = main.temp and
condition = the description of first (followed by a newline); rest is ignored. The body is
valid JSON: read back, it is the object with the two members temperature and condition, the
number converts to the float64 main.temp and the string is the description. -/
theorem handleWeather_success (r : Request) (w : World) (file : String → Option String)
    (resp : UpstreamResponse) (body : String) (wd : WeatherData) (first : WeatherEntry)
    (rest : List WeatherEntry)
    (hcity : r.query.Get "city" ≠ "") (hcfg : w.dotenv = .ok file)
    (hup : w.upstream (weatherURL (r.query.Get "city")
      (Getenv (godotenvLoad w.env file) "openWeatherKey")) = .ok resp)
    (hbody : resp.body = .ok body) (hjson : unmarshal body = .ok wd)
    (hweather : wd.Weather = first :: rest) :
    (handleWeather r w).outcome =
      .response ⟨200, [("Content-Type", "application/json")],
        "\x7b\"temperature\":" ++ formatFloat wd.Main.Temp ++ ",\"condition\":" ++
          encodeString first.Description ++ "\x7d\n"⟩ ∧
    parseJSON ("\x7b\"temperature\":" ++ formatFloat wd.Main.Temp ++ ",\"condition\":" ++
          encodeString first.Description ++ "\x7d\n") =
      some (.object [("temperature", .number (formatFloat wd.Main.Temp)),
        ("condition", .string first.Description)]) ∧
    parseFloat (formatFloat wd.Main.Temp) = some wd.Main.Temp := by
  refine ⟨?_, parseJSON_encodeResponse wd.Main.Temp first.Description
    (unmarshal_temp_valid body wd hjson)⟩
  simp only [handleWeather, if_neg hcity, hcfg, hup, hbody, hjson, hweather]
  rfl

set_option maxRecDepth 100000 in
theorem handleWeather_success_witness :
    unmarshal clearSkyBody = .ok ⟨⟨temp21_5⟩, [⟨"clear sky"⟩]⟩ ∧
    (handleWeather londonRequest (worldWithBody clearSkyBody)).outcome =
      .response ⟨200, [("Content-Type", "application/json")],
        "\x7b\"temperature\":21.5,\"condition\":\"clear sky\"\x7d\n"⟩ ∧
    parseJSON "\x7b\"temperature\":21.5,\"condition\":\"clear sky\"\x7d\n" =
      some (.object [("temperature", .number "21.5"), ("condition", .string "clear sky")]) :=
  ⟨rfl,
   (handleWeather_success londonRequest (worldWithBody clearSkyBody) sampleDotenv
      ⟨200, .ok clearSkyBody⟩ clearSkyBody ⟨⟨temp21_5⟩, [⟨"clear sky"⟩]⟩ ⟨"clear sky"⟩ []
      (by decide) rfl rfl rfl rfl rfl).1.trans rfl,
   rfl⟩

/-- C3 (what the code does): for an upstream body that is valid JSON with an empty weather
sequence, or with none, the handler indexes the empty slice and panics: it sends no response,
in particular no status 500. -/
theorem handleWeather_empty_weather_panics :
    unmarshal emptyWeatherBody = .ok ⟨⟨temp21_5⟩, []⟩ ∧
    (handleWeather londonRequest (worldWithBody emptyWeatherBody)).outcome =
      .panic "runtime error: index out of range [0] with length 0" ∧
    (handleWeather londonRequest (worldWithBody emptyObjectBody)).outcome =
      .panic "runtime error: index out of range [0] with length 0" := by
  set_option maxRecDepth 100000 in exact ⟨rfl, rfl, rfl⟩

/-- C10: the upstream status code is not read. Two worlds that differ only in the status
codes of the upstream responses (same environment, same configuration, and for every URL the
same error or the same body) give the same result. -/
theorem handleWeather_ignores_status (r : Request) (env : Environ)
    (dotenv : Except String (String → Option String))
    (up1 up2 : String → Except String UpstreamResponse)
    (h : ∀ url, Except.map UpstreamResponse.body (up1 url) =
      Except.map UpstreamResponse.body (up2 url)) :
    handleWeather r ⟨env, dotenv, up1⟩ = handleWeather r ⟨env, dotenv, up2⟩ := by
  by_cases hcity : r.query.Get "city" = ""
  · simp only [handleWeather, hcity, if_true]
  · cases dotenv with
    | error e => simp only [handleWeather, if_neg hcity]
    | ok file =>
      have hu := h (weatherURL (r.query.Get "city")
        (Getenv (godotenvLoad env file) "openWeatherKey"))
      cases h1 : up1 (weatherURL (r.query.Get "city")
          (Getenv (godotenvLoad env file) "openWeatherKey")) with
      | error e1 =>
        cases h2 : up2 (weatherURL (r.query.Get "city")
            (Getenv (godotenvLoad env file) "openWeatherKey")) with
        | error e2 => simp only [handleWeather, if_neg hcity, h1, h2]
        | ok r2 => rw [h1, h2] at hu; simp [Except.map] at hu
      | ok r1 =>
        cases h2 : up2 (weatherURL (r.query.Get "city")
            (Getenv (godotenvLoad env file) "openWeatherKey")) with
        | error e2 => rw [h1, h2] at hu; simp [Except.map] at hu
        | ok r2 =>
          rw [h1, h2] at hu
          have hb : r1.body = r2.body := by simpa [Except.map] using hu
          simp only [handleWeather, if_neg hcity, h1, h2, hb]

set_option maxRecDepth 100000 in
theorem handleWeather_ignores_status_witness :
    handleWeather londonRequest (worldWith (.ok ⟨200, .ok clearSkyBody⟩)) =
      handleWeather londonRequest (worldWith (.ok ⟨404, .ok clearSkyBody⟩)) ∧
    (handleWeather londonRequest (worldWith (.ok ⟨404, .ok clearSkyBody⟩))).outcome =
      .response ⟨200, [("Content-Type", "application/json")],
        "\x7b\"temperature\":21.5,\"condition\":\"clear sky\"\x7d\n"⟩ :=
  ⟨handleWeather_ignores_status londonRequest emptyEnviron (.ok sampleDotenv)
      (fun _ => .ok ⟨200, .ok clearSkyBody⟩) (fun _ => .ok ⟨404, .ok clearSkyBody⟩)
      (fun _ => rfl),
   rfl⟩

/-! ### Repeated requests -/

theorem godotenvLoad_idem (env : Environ) (file : String → Option String) :
    godotenvLoad (godotenvLoad env file) file = godotenvLoad env file := by
  funext key
  unfold godotenvLoad
  cases h : env key with
  | some v => simp
  | none => cases h2 : file key <;> simp

/-- With the environment the first call left, the handler gives the same result again. -/
theorem handleWeather_again (r : Request) (w : World) :
    handleWeather r ⟨(handleWeather r w).env, w.dotenv, w.upstream⟩ = handleWeather r w := by
  by_cases hcity : r.query.Get "city" = ""
  · simp only [handleWeather, hcity, if_true]
  · cases hd : w.dotenv with
    | error e => simp only [handleWeather, if_neg hcity, hd]
    | ok file =>
      have he : (handleWeather r w).env = godotenvLoad w.env file := by
        simp only [handleWeather, if_neg hcity, hd]
        split
        · rfl
        · split
          · rfl
          · split
            · rfl
            · split <;> rfl
      rw [he]
      simp only [handleWeather, if_neg hcity, hd, godotenvLoad_idem]

/-- C9: for every state of the process, every configuration and every upstream that is a
function of the URL, the same request served twice in a row gets the same response (the
same status, headers and body, or no response both times), and the process is after the
second request in the state the first one left: nothing accumulates. -/
theorem serve_twice_same_response (dotenv : Except String (String → Option String))
    (upstream : String → Except String UpstreamResponse) (p : Process) (r : Request) :
    (serve dotenv upstream (serve dotenv upstream p r).process r).response =
      (serve dotenv upstream p r).response ∧
    (serve dotenv upstream (serve dotenv upstream p r).process r).process =
      (serve dotenv upstream p r).process := by
  cases p with
  | exited => exact ⟨rfl, rfl⟩
  | running env =>
    have hagain := handleWeather_again r ⟨env, dotenv, upstream⟩
    simp only at hagain
    cases ho : (handleWeather r ⟨env, dotenv, upstream⟩).outcome with
    | response resp =>
      have h1 : serve dotenv upstream (.running env) r =
          ⟨.running (handleWeather r ⟨env, dotenv, upstream⟩).env, some resp,
            (handleWeather r ⟨env, dotenv, upstream⟩).effects⟩ := by
        simp only [serve, ho]
      rw [h1]
      simp only [serve, hagain, ho, and_self]
    | fatal msg =>
      have h1 : serve dotenv upstream (.running env) r =
          ⟨.exited, none, (handleWeather r ⟨env, dotenv, upstream⟩).effects⟩ := by
        simp only [serve, ho]
      rw [h1]
      exact ⟨rfl, rfl⟩
    | panic msg =>
      have h1 : serve dotenv upstream (.running env) r =
          ⟨.running (handleWeather r ⟨env, dotenv, upstream⟩).env, none,
            (handleWeather r ⟨env, dotenv, upstream⟩).effects⟩ := by
        simp only [serve, ho]
      rw [h1]
      simp only [serve, hagain, ho, and_self]

/-! ### The query of the upstream URL -/

theorem cutAt_of_not_mem (sep : Char) (l : List Char) (h : sep ∉ l) :
    cutAt sep l = (l, none) := by
  induction l with
  | nil => rfl
  | cons c cs ih =>
    have hc : c ≠ sep := fun e => h (by simp [e])
    have hcs : sep ∉ cs := fun e => h (by simp [e])
    simp [cutAt, hc, ih hcs]

theorem cutAt_append (sep : Char) (a b : List Char) (h : sep ∉ a) :
    cutAt sep (a ++ sep :: b) = (a, some b) := by
  induction a with
  | nil => simp [cutAt]
  | cons c cs ih =>
    have hc : c ≠ sep := fun e => h (by simp [e])
    have hcs : sep ∉ cs := fun e => h (by simp [e])
    simp [cutAt, hc, ih hcs]

theorem splitOn_of_not_mem (sep : Char) (l : List Char) (h : sep ∉ l) :
    splitOn sep l = [l] := by
  induction l with
  | nil => rfl
  | cons c cs ih =>
    have hc : c ≠ sep := fun e => h (by simp [e])
    have hcs : sep ∉ cs := fun e => h (by simp [e])
    simp [splitOn, hc, ih hcs]

theorem splitOn_append (sep : Char) (a b : List Char) (h : sep ∉ a) :
    splitOn sep (a ++ sep :: b) = a :: splitOn sep b := by
  induction a with
  | nil => simp [splitOn]
  | cons c cs ih =>
    have hc : c ≠ sep := fun e => h (by simp [e])
    have hcs : sep ∉ cs := fun e => h (by simp [e])
    simp [splitOn, hc, ih hcs]

theorem percentDecode_of_not_mem (l : List Char) (h : '%' ∉ l) :
    percentDecode l = some (l.flatMap utf8Char) := by
  induction l with
  | nil => rfl
  | cons c cs ih =>
    have hc : c ≠ '%' := fun e => h (by simp [e])
    have hcs : '%' ∉ cs := fun e => h (by simp [e])
    have ih2 := ih hcs
    unfold percentDecode at ih2 ⊢
    rw [percentDecodeFrom, if_neg hc, ih2]
    simp

theorem decodeParameter_key_value (key value : List Char) (hk : '=' ∉ key)
    (hkp : '%' ∉ key) (hv : '%' ∉ value) :
    decodeParameter (key ++ '=' :: value) =
      some (key.flatMap utf8Char, value.flatMap utf8Char) := by
  unfold decodeParameter
  rw [cutAt_append _ _ _ hk]
  simp only [Option.getD]
  rw [percentDecode_of_not_mem _ hkp, percentDecode_of_not_mem _ hv]

/-- C8 (as amended): for a city c and a key k that contain none of the characters &, # and %,
the URL the handler requests has no fragment and its query reads back as exactly the three
parameters q = c, appid = k and units = metric. -/
theorem handleWeather_url_parameters (r : Request) (w : World)
    (file : String → Option String) (c k : String)
    (hc : r.query.Get "city" = c) (hcity : c ≠ "") (hcfg : w.dotenv = .ok file)
    (hk : Getenv (godotenvLoad w.env file) "openWeatherKey" = k)
    (hcs : '&' ∉ c.data ∧ '#' ∉ c.data ∧ '%' ∉ c.data)
    (hks : '&' ∉ k.data ∧ '#' ∉ k.data ∧ '%' ∉ k.data) :
    (handleWeather r w).effects = [.loadDotenv ".env", .httpGet (weatherURL c k)] ∧
    urlParameters (weatherURL c k) = some (expectedParameters c k) ∧
    urlFragment (weatherURL c k) = none := by
  obtain ⟨hc1, hc2, hc3⟩ := hcs
  obtain ⟨hk1, hk2, hk3⟩ := hks
  have hdata : (weatherURL c k).data =
      "http://api.openweathermap.org/data/2.5/weather".data ++ '?' ::
        (("q=".data ++ c.data) ++ '&' :: (("appid=".data ++ k.data) ++ '&' ::
          "units=metric".data)) := by
    simp [weatherURL, String.data_append]
  have hfrag : cutAt '#' (weatherURL c k).data = ((weatherURL c k).data, none) := by
    apply cutAt_of_not_mem
    rw [hdata]
    simp [hc2, hk2]
  refine ⟨?_, ?_, ?_⟩
  · subst hc hk
    simp only [handleWeather, if_neg hcity, hcfg]
    split
    · rfl
    · split
      · rfl
      · split
        · rfl
        · split <;> rfl
  · unfold urlParameters
    rw [hfrag]
    simp only
    rw [hdata, cutAt_append _ _ _ (by decide)]
    simp only
    rw [splitOn_append _ _ _ (by simp [hc1]), splitOn_append _ _ _ (by simp [hk1]),
      splitOn_of_not_mem _ _ (by decide)]
    have h1 : decodeParameter ("q=".data ++ c.data) = some (utf8Bytes "q", utf8Bytes c) :=
      decodeParameter_key_value "q".data c.data (by decide) (by decide) hc3
    have h2 : decodeParameter ("appid=".data ++ k.data) =
        some (utf8Bytes "appid", utf8Bytes k) :=
      decodeParameter_key_value "appid".data k.data (by decide) (by decide) hk3
    have h3 : decodeParameter "units=metric".data =
        some (utf8Bytes "units", utf8Bytes "metric") := by
      decide
    simp only [decodeParameters, h1, h2, h3, expectedParameters]
  · unfold urlFragment
    rw [hfrag]

set_option maxRecDepth 100000 in
theorem handleWeather_url_parameters_witness :
    (handleWeather ⟨[("city", "New York=NY?")]⟩ (worldWithBody clearSkyBody)).effects =
      [.loadDotenv ".env",
       .httpGet "http://api.openweathermap.org/data/2.5/weather?q=New York=NY?&appid=abc123&units=metric"] ∧
    urlParameters
        "http://api.openweathermap.org/data/2.5/weather?q=New York=NY?&appid=abc123&units=metric" =
      some [(utf8Bytes "q", utf8Bytes "New York=NY?"), (utf8Bytes "appid", utf8Bytes "abc123"),
        (utf8Bytes "units", utf8Bytes "metric")] ∧
    urlFragment
        "http://api.openweathermap.org/data/2.5/weather?q=New York=NY?&appid=abc123&units=metric" =
      none :=
  handleWeather_url_parameters ⟨[("city", "New York=NY?")]⟩ (worldWithBody clearSkyBody)
    sampleDotenv "New York=NY?" "abc123" (by decide) (by decide) rfl (by decide)
    (by decide) (by decide)

/-- C8 (counterexample): the city is written into the URL as it is. For the city
"x&units=imperial" the query of the requested URL reads back as four parameters, q = x,
units = imperial, appid and units = metric; for the city "a#b" the URL has a fragment and
the parameters appid and units are gone; for the city "50%" the parameter q cannot be
decoded. -/
theorem handleWeather_url_not_escaped :
    (handleWeather ⟨[("city", "x&units=imperial")]⟩ (worldWithBody clearSkyBody)).effects =
      [.loadDotenv ".env", .httpGet (weatherURL "x&units=imperial" "abc123")] ∧
    urlParameters (weatherURL "x&units=imperial" "abc123") =
      some [(utf8Bytes "q", utf8Bytes "x"), (utf8Bytes "units", utf8Bytes "imperial"),
        (utf8Bytes "appid", utf8Bytes "abc123"), (utf8Bytes "units", utf8Bytes "metric")] ∧
    urlParameters (weatherURL "x&units=imperial" "abc123") ≠
      some (expectedParameters "x&units=imperial" "abc123") ∧
    urlFragment (weatherURL "a#b" "abc123") = some "b&appid=abc123&units=metric".data ∧
    urlParameters (weatherURL "a#b" "abc123") = some [(utf8Bytes "q", utf8Bytes "a")] ∧
    urlParameters (weatherURL "50%" "abc123") = none := by
  set_option maxRecDepth 100000 in
  exact ⟨by rfl, by decide, by decide, by decide, by decide, by decide⟩

/-! ### Fields the upstream body does not give -/

theorem decodeMembers_main_skip (ms : List (String × Json)) (a : MainData)
    (h : lacksKey ms "temp" = true) : decodeMembers decodeMainMember ms a = .ok a := by
  induction ms with
  | nil => rfl
  | cons m ms ih =>
    simp only [lacksKey, List.all_cons, Bool.and_eq_true, Bool.not_eq_true'] at h
    have hstep : decodeMainMember a m = .ok a := by simp [decodeMainMember, h.1]
    simp only [decodeMembers, hstep]
    exact ih (by simpa [lacksKey] using h.2)

theorem decodeMembers_entry_skip (ms : List (String × Json)) (a : WeatherEntry)
    (h : lacksKey ms "description" = true) : decodeMembers decodeEntryMember ms a = .ok a := by
  induction ms with
  | nil => rfl
  | cons m ms ih =>
    simp only [lacksKey, List.all_cons, Bool.and_eq_true, Bool.not_eq_true'] at h
    have hstep : decodeEntryMember a m = .ok a := by simp [decodeEntryMember, h.1]
    simp only [decodeMembers, hstep]
    exact ih (by simpa [lacksKey] using h.2)

theorem decodeDataMember_main (acc acc' : Decoding) (m : String × Json)
    (hm : mainLacksTemp m = true) (h : decodeDataMember acc m = .ok acc') :
    acc'.data.Main = acc.data.Main := by
  unfold decodeDataMember at h
  by_cases hk : keyMatches m.1 "main" = true
  · simp only [hk, if_true] at h
    simp only [mainLacksTemp, hk, Bool.not_true, Bool.false_or] at hm
    cases hv : m.2 with
    | null =>
      rw [hv] at h
      simp only [decodeMain] at h
      cases h
      rfl
    | object ms =>
      rw [hv] at h hm
      simp only at hm
      simp only [decodeMain, decodeMembers_main_skip ms acc.data.Main hm] at h
      cases h
      rfl
    | bool b => rw [hv] at hm; simp at hm
    | number lit => rw [hv] at hm; simp at hm
    | string x => rw [hv] at hm; simp at hm
    | array vs => rw [hv] at hm; simp at hm
  · have hk2 : keyMatches m.1 "main" = false := by simpa using hk
    simp only [hk2, Bool.false_eq_true, if_false] at h
    by_cases hw : keyMatches m.1 "weather" = true
    · simp only [hw, if_true] at h
      cases hd : decodeWeather m.2 (acc.data.Weather ++ acc.spare) with
      | error e => rw [hd] at h; cases h
      | ok x =>
        rw [hd] at h
        cases h
        rfl
    · have hw2 : keyMatches m.1 "weather" = false := by simpa using hw
      simp only [hw2, Bool.false_eq_true, if_false] at h
      cases h
      rfl

theorem decodeMembers_data_main (ms : List (String × Json)) (acc wd : Decoding)
    (hms : ms.all mainLacksTemp = true)
    (h : decodeMembers decodeDataMember ms acc = .ok wd) : wd.data.Main = acc.data.Main := by
  induction ms generalizing acc with
  | nil =>
    simp only [decodeMembers] at h
    cases h
    rfl
  | cons m ms ih =>
    simp only [List.all_cons, Bool.and_eq_true] at hms
    simp only [decodeMembers] at h
    cases hstep : decodeDataMember acc m with
    | error e => rw [hstep] at h; cases h
    | ok acc' =>
      rw [hstep] at h
      rw [ih acc' hms.2 h]
      exact decodeDataMember_main acc acc' m hms.1 hstep

/-- What the members weather of an object do to the slice: none leaves it as it is, a single
one decodes into the backing array the slice had before. -/
theorem decodeMembers_data_weather (ms : List (String × Json)) (acc wd : Decoding)
    (h : decodeMembers decodeDataMember ms acc = .ok wd) :
    (weatherMembers ms = [] → wd.data.Weather = acc.data.Weather ∧ wd.spare = acc.spare) ∧
    (∀ v, weatherMembers ms = [v] →
      decodeWeather v (acc.data.Weather ++ acc.spare) = .ok (wd.data.Weather, wd.spare)) := by
  induction ms generalizing acc with
  | nil =>
    simp only [decodeMembers] at h
    cases h
    simp [weatherMembers]
  | cons m ms ih =>
    simp only [decodeMembers] at h
    cases hstep : decodeDataMember acc m with
    | error e => rw [hstep] at h; cases h
    | ok acc' =>
      rw [hstep] at h
      simp only at h
      have ih2 := ih acc' h
      unfold decodeDataMember at hstep
      by_cases hk : keyMatches m.1 "main" = true
      · simp only [hk, if_true] at hstep
        have hW : acc'.data.Weather = acc.data.Weather ∧ acc'.spare = acc.spare := by
          cases hd : decodeMain m.2 acc.data.Main with
          | error e => rw [hd] at hstep; cases hstep
          | ok x =>
            rw [hd] at hstep
            cases hstep
            exact ⟨rfl, rfl⟩
        simp only [weatherMembers, hk, if_true]
        rw [← hW.1, ← hW.2]
        exact ih2
      · have hk2 : keyMatches m.1 "main" = false := by simpa using hk
        simp only [hk2, Bool.false_eq_true, if_false] at hstep
        by_cases hw : keyMatches m.1 "weather" = true
        · simp only [hw, if_true] at hstep
          have hW : decodeWeather m.2 (acc.data.Weather ++ acc.spare) =
              .ok (acc'.data.Weather, acc'.spare) := by
            cases hd : decodeWeather m.2 (acc.data.Weather ++ acc.spare) with
            | error e => rw [hd] at hstep; cases hstep
            | ok x =>
              rw [hd] at hstep
              cases hstep
              rfl
          simp only [weatherMembers, hk2, hw, Bool.false_eq_true, if_false, if_true]
          constructor
          · intro hnil
            cases hnil
          · intro v hv
            have hv1 : m.2 = v := (List.cons.inj hv).1
            have hv2 : weatherMembers ms = [] := (List.cons.inj hv).2
            obtain ⟨h1, h2⟩ := ih2.1 hv2
            rw [← hv1, h1, h2]
            exact hW
        · have hw2 : keyMatches m.1 "weather" = false := by simpa using hw
          simp only [hw2, Bool.false_eq_true, if_false] at hstep
          cases hstep
          simp only [weatherMembers, hk2, hw2, Bool.false_eq_true, if_false]
          exact ih2

theorem decodeEntries_cons (store : List WeatherEntry) (e : Json) (es : List Json)
    (ws : List WeatherEntry) (h : decodeEntries store (e :: es) = .ok ws) :
    ∃ x xs, decodeEntry e (store.headD ⟨""⟩) = .ok x ∧ ws = x :: xs := by
  simp only [decodeEntries] at h
  cases he : decodeEntry e (store.headD ⟨""⟩) with
  | error err => rw [he] at h; cases h
  | ok x =>
    rw [he] at h
    cases hes : decodeEntries store.tail es with
    | error err => rw [hes] at h; cases h
    | ok xs =>
      rw [hes] at h
      cases h
      exact ⟨x, xs, rfl, rfl⟩

theorem unmarshal_decoding (body : String) (doc : Json) (wd : WeatherData)
    (hparse : parseJSON body = some doc) (hjson : unmarshal body = .ok wd) :
    ∃ d, decodeWeatherData doc ⟨WeatherData.zero, []⟩ = .ok d ∧ d.data = wd := by
  simp only [unmarshal, hparse] at hjson
  cases hd : decodeWeatherData doc ⟨WeatherData.zero, []⟩ with
  | error e => rw [hd] at hjson; cases hjson
  | ok d =>
    rw [hd] at hjson
    cases hjson
    exact ⟨d, rfl, rfl⟩

theorem first_description_empty (doc : Json) (wd : Decoding) (first : WeatherEntry)
    (rest : List WeatherEntry) (hdoc : lacksFirstDescription doc = true)
    (h : decodeWeatherData doc ⟨WeatherData.zero, []⟩ = .ok wd)
    (hweather : wd.data.Weather = first :: rest) : first.Description = "" := by
  cases doc with
  | object ms =>
    simp only [decodeWeatherData] at h
    have hone := (decodeMembers_data_weather ms _ wd h).2
    simp only [lacksFirstDescription] at hdoc
    cases hl : weatherMembers ms with
    | nil => rw [hl] at hdoc; simp at hdoc
    | cons v tl =>
      rw [hl] at hdoc
      cases tl with
      | cons v2 tl2 => simp at hdoc
      | nil =>
        have hv := hone v hl
        cases v with
        | array vs =>
          cases vs with
          | nil => simp at hdoc
          | cons e es =>
            simp only [decodeWeather] at hv
            cases hes : decodeEntries (WeatherData.zero.Weather ++ []) (e :: es) with
            | error err => rw [hes] at hv; cases hv
            | ok ws =>
              rw [hes] at hv
              have hws : ws = first :: rest := by
                have h1 := (Prod.mk.inj (Except.ok.inj hv)).1
                rw [h1]
                exact hweather
              obtain ⟨x, xs, hx, hxs⟩ := decodeEntries_cons _ e es ws hes
              have hfx : first = x := by
                rw [hws] at hxs
                cases hxs
                rfl
              rw [hfx]
              have hzero : (WeatherData.zero.Weather ++ []).headD ⟨""⟩ = ⟨""⟩ := rfl
              rw [hzero] at hx
              cases e with
              | null =>
                simp only [decodeEntry] at hx
                cases hx
                rfl
              | object fs =>
                simp only at hdoc
                simp only [decodeEntry, decodeMembers_entry_skip fs _ hdoc] at hx
                cases hx
                rfl
              | bool b => simp at hdoc
              | number lit => simp at hdoc
              | string x => simp at hdoc
              | array vs => simp at hdoc
        | null => simp at hdoc
        | bool b => simp at hdoc
        | number lit => simp at hdoc
        | string x => simp at hdoc
        | object fs => simp at hdoc
  | null => simp [lacksFirstDescription] at hdoc
  | bool b => simp [lacksFirstDescription] at hdoc
  | number lit => simp [lacksFirstDescription] at hdoc
  | string x => simp [lacksFirstDescription] at hdoc
  | array vs => simp [lacksFirstDescription] at hdoc

theorem temp_zero (doc : Json) (wd : Decoding) (hdoc : lacksTemp doc = true)
    (h : decodeWeatherData doc ⟨WeatherData.zero, []⟩ = .ok wd) :
    wd.data.Main.Temp = Float64.zero := by
  cases doc with
  | object ms =>
    simp only [decodeWeatherData] at h
    simp only [lacksTemp] at hdoc
    rw [decodeMembers_data_main ms _ wd hdoc h]
    rfl
  | null => simp [lacksTemp] at hdoc
  | bool b => simp [lacksTemp] at hdoc
  | number lit => simp [lacksTemp] at hdoc
  | string x => simp [lacksTemp] at hdoc
  | array vs => simp [lacksTemp] at hdoc

/-- A repeated member weather decodes into the elements the earlier ones left: null and an
empty object keep the description that is there. -/
theorem unmarshal_repeated_weather :
    unmarshal repeatedWeatherBody = .ok ⟨⟨Float64.zero⟩, [⟨"a"⟩, ⟨"b"⟩, ⟨""⟩]⟩ ∧
    unmarshal "\x7b\"weather\":[\x7b\"description\":\"a\"\x7d],\"weather\":[\x7b\x7d]\x7d" =
      .ok ⟨⟨Float64.zero⟩, [⟨"a"⟩]⟩ ∧
    unmarshal "\x7b\"weather\":[\x7b\"description\":\"a\"\x7d],\"weather\":[],\"weather\":[\x7b\x7d]\x7d" =
      .ok ⟨⟨Float64.zero⟩, [⟨""⟩]⟩ := by
  set_option maxRecDepth 100000 in exact ⟨rfl, rfl, rfl⟩

theorem formatFloat_zero : formatFloat Float64.zero = "0" := by decide

/-- C4 (as amended): with a city and a configuration that loads, an upstream body that is
valid JSON, decodes (no member of a wrong kind) and has a non-empty weather sequence is
answered 200, not 500, also when a field is missing: without main or without main.temp the
temperature is 0, and when the document has one member weather whose first element has no
description the condition is the empty string. -/
theorem handleWeather_missing_field_defaults (r : Request) (w : World)
    (file : String → Option String) (resp : UpstreamResponse) (body : String) (doc : Json)
    (wd : WeatherData) (first : WeatherEntry) (rest : List WeatherEntry)
    (hcity : r.query.Get "city" ≠ "") (hcfg : w.dotenv = .ok file)
    (hup : w.upstream (weatherURL (r.query.Get "city")
      (Getenv (godotenvLoad w.env file) "openWeatherKey")) = .ok resp)
    (hbody : resp.body = .ok body) (hparse : parseJSON body = some doc)
    (hjson : unmarshal body = .ok wd) (hweather : wd.Weather = first :: rest) :
    (lacksTemp doc = true →
      (handleWeather r w).outcome =
        .response ⟨200, [("Content-Type", "application/json")],
          "\x7b\"temperature\":0,\"condition\":" ++ encodeString first.Description ++
            "\x7d\n"⟩) ∧
    (lacksFirstDescription doc = true →
      (handleWeather r w).outcome =
        .response ⟨200, [("Content-Type", "application/json")],
          "\x7b\"temperature\":" ++ formatFloat wd.Main.Temp ++ ",\"condition\":\"\"\x7d\n"⟩) := by
  have hout : (handleWeather r w).outcome =
      .response ⟨200, [("Content-Type", "application/json")],
        encodeResponse ⟨wd.Main.Temp, first.Description⟩⟩ := by
    simp only [handleWeather, if_neg hcity, hcfg, hup, hbody, hjson, hweather]
    rfl
  obtain ⟨dec, hdec, hdata⟩ := unmarshal_decoding body doc wd hparse hjson
  subst hdata
  constructor
  · intro hdoc
    rw [hout, temp_zero doc dec hdoc hdec]
    simp only [encodeResponse, formatFloat_zero]
    rfl
  · intro hdoc
    rw [hout, first_description_empty doc dec first rest hdoc hdec hweather]
    simp only [encodeResponse, String.append_assoc]
    rfl

set_option maxRecDepth 100000 in
theorem handleWeather_missing_field_defaults_witness :
    (handleWeather londonRequest (worldWithBody noMainBody)).outcome =
      .response ⟨200, [("Content-Type", "application/json")],
        "\x7b\"temperature\":0,\"condition\":\"clear sky\"\x7d\n"⟩ ∧
    (handleWeather londonRequest (worldWithBody noDescriptionBody)).outcome =
      .response ⟨200, [("Content-Type", "application/json")],
        "\x7b\"temperature\":21.5,\"condition\":\"\"\x7d\n"⟩ :=
  ⟨((handleWeather_missing_field_defaults londonRequest (worldWithBody noMainBody) sampleDotenv
      ⟨200, .ok noMainBody⟩ noMainBody
      (.object [("weather", .array [.object [("description", .string "clear sky")]])])
      ⟨⟨Float64.zero⟩, [⟨"clear sky"⟩]⟩ ⟨"clear sky"⟩ []
      (by decide) rfl rfl rfl rfl rfl rfl).1 rfl).trans rfl,
   ((handleWeather_missing_field_defaults londonRequest (worldWithBody noDescriptionBody)
      sampleDotenv ⟨200, .ok noDescriptionBody⟩ noDescriptionBody
      (.object [("main", .object [("temp", .number "21.5")]), ("weather", .array [.object []])])
      ⟨⟨temp21_5⟩, [⟨""⟩]⟩ ⟨""⟩ []
      (by decide) rfl rfl rfl rfl rfl rfl).2 rfl).trans rfl⟩

/-- C4 (counterexample): the upstream body with a weather sequence and no main is valid JSON
with a missing field, and the handler answers it 200 with the temperature defaulted to 0,
not 500. -/
theorem handleWeather_no_main_is_200 :
    parseJSON noMainBody =
      some (.object [("weather", .array [.object [("description", .string "clear sky")]])]) ∧
    (handleWeather londonRequest (worldWithBody noMainBody)).outcome =
      .response ⟨200, [("Content-Type", "application/json")],
        "\x7b\"temperature\":0,\"condition\":\"clear sky\"\x7d\n"⟩ := by
  set_option maxRecDepth 100000 in exact ⟨rfl, rfl⟩

end GoWeather
